import Mathlib

/-!
Verification of the Vector Balls simulation core (physics.py, src/ball.py,
src/game.py) against its specification.

Embedding conventions:
* pygame.math.Vector2 is embedded as a pair of real numbers; float
  arithmetic is idealised as exact real arithmetic.
* `random.*` draws and `pygame.time.get_ticks()` are modelled as oracle
  parameters passed to the functions that consume them, so every theorem
  quantifies over all possible random outcomes and clock readings.
* Python object references are modelled by ball ids: every ball gets a
  fixed id at spawn time and the lists `all_balls` / `to_eliminate`, which
  in Python hold object references, hold ids here.
-/

namespace VectorBalls

/-- 2D vector, embedding pygame.math.Vector2. -/
abbrev Vec : Type := ℝ × ℝ

def vadd (v w : Vec) : Vec := (v.1 + w.1, v.2 + w.2)

def vsub (v w : Vec) : Vec := (v.1 - w.1, v.2 - w.2)

def smul (k : ℝ) (v : Vec) : Vec := (k * v.1, k * v.2)

/-- Vector2.dot -/
def dot (v w : Vec) : ℝ := v.1 * w.1 + v.2 * w.2

/-- Vector2.length_squared -/
def lengthSq (v : Vec) : ℝ := dot v v

/-- Vector2.length -/
noncomputable def vlength (v : Vec) : ℝ := Real.sqrt (lengthSq v)

/-- Vector2.normalize: v / |v| (callers guard against |v| = 0). -/
noncomputable def vnormalize (v : Vec) : Vec := smul (1 / vlength v) v

/-- Vector2.scale_to_length: v * (s / |v|) (callers guard against |v| = 0). -/
noncomputable def scale_to_length (v : Vec) (s : ℝ) : Vec := smul (s / vlength v) v

/-- The perpendicular (-v.y, v.x), as used for the tangent in physics.py. -/
def perp (v : Vec) : Vec := (-v.2, v.1)

/-! Configuration constants from src/config.py. -/

def MAX_SPEED : ℝ := 700

def BALL_RADIUS : ℝ := 12

/-- int((min(1000, 1000) // 2 - 40) * 0.75) = 345 -/
def BOUNDARY_RADIUS : ℝ := 345

def BOUNDARY_CENTER : Vec := (500, 500)

def GRACE_PERIOD_DURATION : ℝ := 1

def BOUNDARY_BOUNCE_COOLDOWN : ℝ := 0.12

def INITIAL_LINES_PER_BALL : ℕ := 3

def INITIAL_SPEED_MIN : ℝ := 160

def INITIAL_SPEED_MAX : ℝ := 240

/-! Basic vector lemmas. -/

theorem lengthSq_nonneg (v : Vec) : 0 ≤ lengthSq v := by
  unfold lengthSq dot
  nlinarith [sq_nonneg v.1, sq_nonneg v.2]

theorem vlength_nonneg (v : Vec) : 0 ≤ vlength v := Real.sqrt_nonneg _

theorem sq_vlength (v : Vec) : vlength v ^ 2 = lengthSq v :=
  Real.sq_sqrt (lengthSq_nonneg v)

theorem lengthSq_eq_zero_iff (v : Vec) : lengthSq v = 0 ↔ v = (0, 0) := by
  unfold lengthSq dot
  constructor
  · intro h
    have h1 : v.1 = 0 := by nlinarith [sq_nonneg v.1, sq_nonneg v.2]
    have h2 : v.2 = 0 := by nlinarith [sq_nonneg v.1, sq_nonneg v.2]
    exact Prod.ext h1 h2
  · intro h; rw [h]; norm_num

theorem vlength_eq_zero_iff (v : Vec) : vlength v = 0 ↔ v = (0, 0) := by
  unfold vlength
  rw [Real.sqrt_eq_zero (lengthSq_nonneg v)]
  exact lengthSq_eq_zero_iff v

theorem vlength_pos (v : Vec) (hv : v ≠ (0, 0)) : 0 < vlength v := by
  rcases lt_or_eq_of_le (vlength_nonneg v) with h | h
  · exact h
  · exact absurd ((vlength_eq_zero_iff v).mp h.symm) hv

/-- Evaluation helper: the length of a concrete vector. -/
theorem vlength_eval (x y L : ℝ) (hL : 0 ≤ L) (h : x * x + y * y = L ^ 2) :
    vlength (x, y) = L := by
  unfold vlength lengthSq dot
  simp only
  rw [h]
  exact Real.sqrt_sq hL

theorem lengthSq_smul (k : ℝ) (v : Vec) : lengthSq (smul k v) = k ^ 2 * lengthSq v := by
  unfold lengthSq smul dot; ring

theorem vlength_smul (k : ℝ) (v : Vec) : vlength (smul k v) = |k| * vlength v := by
  unfold vlength
  rw [lengthSq_smul, Real.sqrt_mul (sq_nonneg k), Real.sqrt_sq_eq_abs]

/-- A normalized nonzero vector is a unit vector. -/
theorem lengthSq_vnormalize (v : Vec) (hv : v ≠ (0, 0)) :
    lengthSq (vnormalize v) = 1 := by
  unfold vnormalize
  rw [lengthSq_smul]
  have hL : 0 < vlength v := vlength_pos v hv
  rw [← sq_vlength v]
  field_simp

theorem vlength_vnormalize (v : Vec) (hv : v ≠ (0, 0)) :
    vlength (vnormalize v) = 1 := by
  unfold vlength
  rw [lengthSq_vnormalize v hv, Real.sqrt_one]

/-- scale_to_length really produces the requested (nonnegative) length. -/
theorem vlength_scale_to_length (v : Vec) (s : ℝ) (hv : v ≠ (0, 0)) (hs : 0 ≤ s) :
    vlength (scale_to_length v s) = s := by
  unfold scale_to_length
  rw [vlength_smul]
  have hL : 0 < vlength v := vlength_pos v hv
  rw [abs_of_nonneg (div_nonneg hs hL.le)]
  field_simp

/-! Geometry / physics primitives from physics.py. -/

/-- physics.reflect: reflect a velocity about a normal; the normal is
normalized internally and the zero normal is a no-op. -/
noncomputable def reflect (velocity normal : Vec) : Vec :=
  if lengthSq normal = 0 then velocity
  else vsub velocity (smul (2 * dot velocity (vnormalize normal)) (vnormalize normal))

/-- physics.distance_point_to_segment -/
noncomputable def distance_point_to_segment (point seg_a seg_b : Vec) : ℝ :=
  let ab := vsub seg_b seg_a
  let ap := vsub point seg_a
  let ab_len_sq := lengthSq ab
  if ab_len_sq = 0 then vlength ap
  else
    let t := max 0 (min 1 (dot ap ab / ab_len_sq))
    let closest := vadd seg_a (smul t ab)
    vlength (vsub point closest)

/-- physics.circle_intersects_segment -/
noncomputable def circle_intersects_segment (center : Vec) (radius : ℝ) (seg_a seg_b : Vec) : Prop :=
  distance_point_to_segment center seg_a seg_b ≤ radius

noncomputable instance (center : Vec) (radius : ℝ) (seg_a seg_b : Vec) :
    Decidable (circle_intersects_segment center radius seg_a seg_b) :=
  inferInstanceAs (Decidable (distance_point_to_segment center seg_a seg_b ≤ radius))

/-- The reflection law (claim C5 core): unfolds reflect at a nonzero normal. -/
theorem reflect_of_ne (v n : Vec) (hn : n ≠ (0, 0)) :
    reflect v n = vsub v (smul (2 * dot v (vnormalize n)) (vnormalize n)) := by
  unfold reflect
  rw [if_neg (fun h => hn ((lengthSq_eq_zero_iff n).mp h))]

theorem reflect_formula_lengthSq (v : Vec) (p q : ℝ) (hu : p * p + q * q = 1) :
    lengthSq (vsub v (smul (2 * dot v (p, q)) (p, q))) = lengthSq v := by
  unfold lengthSq dot vsub smul
  simp only
  linear_combination (4 * (v.1 * p + v.2 * q) ^ 2) * hu

theorem reflect_formula_dot_normal (v : Vec) (p q : ℝ) (hu : p * p + q * q = 1) :
    dot (vsub v (smul (2 * dot v (p, q)) (p, q))) (p, q) = -(dot v (p, q)) := by
  unfold dot vsub smul
  simp only
  linear_combination (-2 * (v.1 * p + v.2 * q)) * hu

theorem reflect_formula_dot_tangent (v : Vec) (p q : ℝ) :
    dot (vsub v (smul (2 * dot v (p, q)) (p, q))) (perp (p, q)) = dot v (perp (p, q)) := by
  unfold dot vsub smul perp
  simp only
  ring

theorem reflect_preserves_length (v n : Vec) (hn : n ≠ (0, 0)) :
    vlength (reflect v n) = vlength v := by
  rw [reflect_of_ne v n hn]
  have hu : lengthSq (vnormalize n) = 1 := lengthSq_vnormalize n hn
  unfold vlength
  rcases hnn : vnormalize n with ⟨p, q⟩
  rw [hnn] at hu
  have hu' : p * p + q * q = 1 := by
    unfold lengthSq dot at hu; simpa using hu
  rw [reflect_formula_lengthSq v p q hu']

/-- C5: reflect preserves length, negates the normal component, keeps the
tangential component, and is the identity on the zero normal. -/
theorem claim_C5_reflect_law (v n : Vec) (hn : n ≠ (0, 0)) :
    vlength (reflect v n) = vlength v ∧
    dot (reflect v n) (vnormalize n) = -(dot v (vnormalize n)) ∧
    dot (reflect v n) (perp (vnormalize n)) = dot v (perp (vnormalize n)) ∧
    reflect v (0, 0) = v := by
  have hu : lengthSq (vnormalize n) = 1 := lengthSq_vnormalize n hn
  refine ⟨reflect_preserves_length v n hn, ?_, ?_, ?_⟩
  · rw [reflect_of_ne v n hn]
    rcases hnn : vnormalize n with ⟨p, q⟩
    rw [hnn] at hu
    have hu' : p * p + q * q = 1 := by
      unfold lengthSq dot at hu; simpa using hu
    exact reflect_formula_dot_normal v p q hu'
  · rw [reflect_of_ne v n hn]
    rcases hnn : vnormalize n with ⟨p, q⟩
    exact reflect_formula_dot_tangent v p q
  · unfold reflect
    rw [if_pos]
    unfold lengthSq dot
    norm_num

theorem claim_C5_reflect_law_witness :
    (((1 : ℝ), (0 : ℝ)) ≠ ((0 : ℝ), (0 : ℝ))) ∧
    (vlength (reflect ((3 : ℝ), (4 : ℝ)) (1, 0)) = vlength ((3 : ℝ), (4 : ℝ)) ∧
     dot (reflect ((3 : ℝ), (4 : ℝ)) (1, 0)) (vnormalize (1, 0)) =
       -(dot ((3 : ℝ), (4 : ℝ)) (vnormalize (1, 0))) ∧
     dot (reflect ((3 : ℝ), (4 : ℝ)) (1, 0)) (perp (vnormalize (1, 0))) =
       dot ((3 : ℝ), (4 : ℝ)) (perp (vnormalize (1, 0))) ∧
     reflect ((3 : ℝ), (4 : ℝ)) (0, 0) = (3, 4)) :=
  ⟨by norm_num [Prod.ext_iff], claim_C5_reflect_law (3, 4) (1, 0) (by norm_num [Prod.ext_iff])⟩

/-! Ball entity from src/ball.py. The source stores the radius as an int,
but it is only ever the constant BALL_RADIUS = 12; it is embedded as a real
since all arithmetic on it is float arithmetic. The fields lines_per_hit and
boundary_speed_increase are the per-ball snapshots of the Settings fields
taken in Ball.__init__. -/

structure Ball where
  id : ℕ
  position : Vec
  velocity : Vec
  color : ℕ × ℕ × ℕ
  radius : ℝ
  lines : List Vec
  boundary_cooldown : ℝ
  lines_per_hit : ℕ
  boundary_speed_increase : ℝ
  lines_removed_by_me : ℕ
  my_lines_removed_by_others : ℕ

instance : Inhabited Ball :=
  ⟨{ id := 0, position := (0, 0), velocity := (0, 0), color := (0, 0, 0),
     radius := BALL_RADIUS, lines := [], boundary_cooldown := 0,
     lines_per_hit := 0, boundary_speed_increase := 0,
     lines_removed_by_me := 0, my_lines_removed_by_others := 0 }⟩

/-- Ball.add_random_lines: 'count' anchors on the boundary circle at the
angles supplied by the randomness oracle, appended in order. -/
noncomputable def spawnAnchors (boundary_center : Vec) (boundary_radius : ℝ)
    (angles : ℕ → ℝ) (count : ℕ) : List Vec :=
  (List.range count).map fun k =>
    (boundary_center.1 + Real.cos (angles k) * boundary_radius,
     boundary_center.2 + Real.sin (angles k) * boundary_radius)

noncomputable def add_random_lines (b : Ball) (boundary_center : Vec)
    (boundary_radius : ℝ) (angles : ℕ → ℝ) (count : ℕ) : Ball :=
  { b with lines := b.lines ++ spawnAnchors boundary_center boundary_radius angles count }

/-- The surface normal used in Ball.update's boundary branch:
offset.normalize() if the offset is nonzero, else (1, 0). -/
noncomputable def boundaryNormal (offset : Vec) : Vec :=
  if vlength offset ≠ 0 then vnormalize offset else (1, 0)

/-- Ball.update (src/ball.py lines 60-87): integrate position, tick the
cooldown, then handle a boundary collision (clamp inside, reflect, speed
boost capped at MAX_SPEED, spawn new lines when the cooldown has expired).
The angle oracle stands for the random.random() draws of add_random_lines. -/
noncomputable def Ball.update (b : Ball) (dt : ℝ) (boundary_center : Vec)
    (boundary_radius : ℝ) (angles : ℕ → ℝ) : Ball :=
  let pos1 := vadd b.position (smul dt b.velocity)
  let cd1 := if 0 < b.boundary_cooldown then max 0 (b.boundary_cooldown - dt)
             else b.boundary_cooldown
  let offset := vsub pos1 boundary_center
  let dist_from_center := vlength offset
  if boundary_radius < dist_from_center + b.radius then
    let normal := boundaryNormal offset
    let pos2 := vadd boundary_center (smul (boundary_radius - b.radius) normal)
    let vel2 := reflect b.velocity normal
    let speed := vlength vel2
    let vel3 := if 0 < speed then
        scale_to_length vel2 (min (speed + b.boundary_speed_increase) MAX_SPEED)
      else vel2
    let b1 : Ball := { b with position := pos2, velocity := vel3, boundary_cooldown := cd1 }
    if cd1 ≤ 0 then
      { (add_random_lines b1 boundary_center boundary_radius angles b.lines_per_hit) with
          boundary_cooldown := BOUNDARY_BOUNCE_COOLDOWN }
    else b1
  else
    { b with position := pos1, boundary_cooldown := cd1 }

/-! Collision resolver from physics.py (resolve_ball_ball_collision),
split into the overlap-separation step and the speed-boost step so the
theorems can talk about the intermediate quantities. -/

/-- Lines 66-80 of physics.py: the (possibly corrected) positions of the
two balls after the symmetric overlap separation. -/
noncomputable def resolveSeparate (a b : Ball) : Vec × Vec :=
  let delta0 := vsub b.position a.position
  let distance0 := vlength delta0
  let min_distance := a.radius + b.radius
  let delta := if distance0 = 0 then ((1 : ℝ), (0 : ℝ)) else delta0
  let distance := if distance0 = 0 then (1 : ℝ) else distance0
  let overlap := min_distance - distance
  if 0 < overlap then
    let correction := smul (overlap / 2 + 0.1) (vnormalize delta)
    (vsub a.position correction, vadd b.position correction)
  else (a.position, b.position)

/-- Lines 102-105 / 107-110 of physics.py: cap the speed at MAX_SPEED after
applying the multiplicative boost (skipped for a zero velocity). -/
noncomputable def speedBoost (v : Vec) (speed_increase_factor : ℝ) : Vec :=
  if 0 < lengthSq v then
    let new_speed := min (vlength v * (1 + speed_increase_factor)) MAX_SPEED
    if 0 < new_speed then scale_to_length v new_speed else v
  else v

/-- physics.resolve_ball_ball_collision: separate overlapping balls, swap the
normal velocity components (equal-mass elastic exchange), keep the tangential
components, then boost both speeds. Returns the updated pair (a, b). -/
noncomputable def resolve_ball_ball_collision (a b : Ball) (speed_increase_factor : ℝ) :
    Ball × Ball :=
  let ab := resolveSeparate a b
  let n0 := vsub ab.2 ab.1
  if lengthSq n0 = 0 then
    ({ a with position := ab.1 }, { b with position := ab.2 })
  else
    let n := vnormalize n0
    let t := perp n
    let a_vn := dot a.velocity n
    let a_vt := dot a.velocity t
    let b_vn := dot b.velocity n
    let b_vt := dot b.velocity t
    let avel := vadd (smul b_vn n) (smul a_vt t)
    let bvel := vadd (smul a_vn n) (smul b_vt t)
    ({ a with position := ab.1, velocity := speedBoost avel speed_increase_factor },
     { b with position := ab.2, velocity := speedBoost bvel speed_increase_factor })

theorem vsub_vadd_cancel (c w : Vec) : vsub (vadd c w) c = w := by
  unfold vadd vsub
  exact Prod.ext (by ring) (by ring)

theorem vlength_boundaryNormal (offset : Vec) : vlength (boundaryNormal offset) = 1 := by
  unfold boundaryNormal
  split_ifs with h
  · have : offset ≠ (0, 0) := fun h0 => h ((vlength_eq_zero_iff offset).mpr h0)
    exact vlength_vnormalize offset this
  · exact vlength_eval 1 0 1 (by norm_num) (by norm_num)

/-- The position produced by Ball.update: clamped onto the boundary circle
in the bounce branch, the integrated position otherwise. -/
theorem Ball.update_position (b : Ball) (dt : ℝ) (boundary_center : Vec)
    (boundary_radius : ℝ) (angles : ℕ → ℝ) :
    (Ball.update b dt boundary_center boundary_radius angles).position =
      if boundary_radius <
          vlength (vsub (vadd b.position (smul dt b.velocity)) boundary_center) + b.radius
      then vadd boundary_center (smul (boundary_radius - b.radius)
        (boundaryNormal (vsub (vadd b.position (smul dt b.velocity)) boundary_center)))
      else vadd b.position (smul dt b.velocity) := by
  unfold Ball.update add_random_lines
  simp only
  split_ifs <;> rfl

/-- C6: after Ball.update the ball is contained in the boundary circle
(exactly, in real arithmetic), whether or not a bounce occurred. -/
theorem claim_C6_boundary_containment (b : Ball) (dt : ℝ) (boundary_center : Vec)
    (boundary_radius : ℝ) (angles : ℕ → ℝ) (h : b.radius < boundary_radius) :
    vlength (vsub (Ball.update b dt boundary_center boundary_radius angles).position
      boundary_center) + b.radius ≤ boundary_radius := by
  rw [Ball.update_position]
  split_ifs with hcol
  · rw [vsub_vadd_cancel, vlength_smul, vlength_boundaryNormal,
      abs_of_nonneg (by linarith : (0 : ℝ) ≤ boundary_radius - b.radius)]
    linarith
  · linarith [not_lt.mp hcol]

theorem claim_C6_boundary_containment_witness :
    ((default : Ball).radius < BOUNDARY_RADIUS) ∧
    vlength (vsub (Ball.update default 0 BOUNDARY_CENTER BOUNDARY_RADIUS
      (fun _ => 0)).position BOUNDARY_CENTER) + (default : Ball).radius ≤ BOUNDARY_RADIUS :=
  ⟨by norm_num [default, BALL_RADIUS, BOUNDARY_RADIUS],
   claim_C6_boundary_containment default 0 BOUNDARY_CENTER BOUNDARY_RADIUS (fun _ => 0)
     (by norm_num [default, BALL_RADIUS, BOUNDARY_RADIUS])⟩

/-! Helper lemmas for the collision resolver. -/

theorem vsub_eq_zero_iff (v w : Vec) : vsub v w = (0, 0) ↔ v = w := by
  unfold vsub
  constructor
  · intro h
    have h1 := congrArg Prod.fst h
    have h2 := congrArg Prod.snd h
    simp only at h1 h2
    exact Prod.ext (by linarith) (by linarith)
  · intro h; rw [h]; exact Prod.ext (by ring) (by ring)

theorem smul_smul' (k l : ℝ) (v : Vec) : smul k (smul l v) = smul (k * l) v := by
  unfold smul
  exact Prod.ext (by ring) (by ring)

theorem smul_one' (v : Vec) : smul 1 v = v := by
  unfold smul
  exact Prod.ext (by ring) (by ring)

theorem smul_eq_zero_iff (k : ℝ) (v : Vec) (hk : k ≠ 0) :
    smul k v = (0, 0) ↔ v = (0, 0) := by
  unfold smul
  constructor
  · intro h
    have h1 := congrArg Prod.fst h
    have h2 := congrArg Prod.snd h
    simp only at h1 h2
    exact Prod.ext (by
      have := mul_eq_zero.mp h1
      tauto) (by
      have := mul_eq_zero.mp h2
      tauto)
  · intro h; rw [h]; exact Prod.ext (by simp) (by simp)

theorem vnormalize_eq_smul (v : Vec) : vnormalize v = smul (1 / vlength v) v := rfl

theorem vnormalize_smul_pos (k : ℝ) (v : Vec) (hk : 0 < k) (hv : v ≠ (0, 0)) :
    vnormalize (smul k v) = vnormalize v := by
  unfold vnormalize
  rw [vlength_smul, abs_of_pos hk, smul_smul']
  have hL : 0 < vlength v := vlength_pos v hv
  congr 1
  field_simp

/-- The separation arithmetic: ((b + c) - (a - c)) = (b - a) + 2c. -/
theorem sep_diff (apos bpos c : Vec) :
    vsub (vadd bpos c) (vsub apos c) = vadd (vsub bpos apos) (smul 2 c) := by
  unfold vadd vsub smul
  exact Prod.ext (by ring) (by ring)

/-- resolveSeparate in the genuine-overlap case (0 < distance < sum of radii):
the corrected difference vector is a positive multiple of the original one. -/
theorem resolveSeparate_overlap (a b : Ball)
    (hd : 0 < vlength (vsub b.position a.position))
    (hlt : vlength (vsub b.position a.position) < a.radius + b.radius) :
    vsub (resolveSeparate a b).2 (resolveSeparate a b).1 =
      smul (1 + (a.radius + b.radius - vlength (vsub b.position a.position) + 0.2) /
        vlength (vsub b.position a.position)) (vsub b.position a.position) := by
  unfold resolveSeparate
  simp only
  rw [if_neg hd.ne', if_neg hd.ne']
  rw [if_pos (by linarith)]
  simp only
  rw [sep_diff, vnormalize_eq_smul, smul_smul', smul_smul']
  set d := vlength (vsub b.position a.position) with hdd
  unfold vadd smul
  have hdne : d ≠ 0 := hd.ne'
  apply Prod.ext
  · simp only
    field_simp
    ring
  · simp only
    field_simp
    ring

/-- In the genuine-overlap case the separated centers are at distance
d + overlap + 0.2 exactly. -/
theorem resolveSeparate_distance (a b : Ball)
    (hd : 0 < vlength (vsub b.position a.position))
    (hlt : vlength (vsub b.position a.position) < a.radius + b.radius) :
    vlength (vsub (resolveSeparate a b).2 (resolveSeparate a b).1) =
      vlength (vsub b.position a.position) +
        (a.radius + b.radius - vlength (vsub b.position a.position)) + 0.2 := by
  rw [resolveSeparate_overlap a b hd hlt, vlength_smul]
  set d := vlength (vsub b.position a.position) with hdd
  have hk : 0 < 1 + (a.radius + b.radius - d + 0.2) / d := by
    have : 0 < (a.radius + b.radius - d + 0.2) / d := by
      apply div_pos (by linarith) hd
    linarith
  rw [abs_of_pos hk]
  field_simp
  ring

/-- Whenever the two balls' centers differ, or their combined radius exceeds
the substituted unit distance, the post-separation difference is nonzero and
the resolver does not take its degenerate early return. -/
theorem resolveSeparate_sub_ne (a b : Ball)
    (hpos : a.position ≠ b.position ∨ 1 < a.radius + b.radius) :
    vsub (resolveSeparate a b).2 (resolveSeparate a b).1 ≠ (0, 0) := by
  by_cases hd : vlength (vsub b.position a.position) = 0
  · -- coincident centers: the substituted separation vector (1,0) is used
    have hcoin : b.position = a.position := (vsub_eq_zero_iff _ _).mp ((vlength_eq_zero_iff _).mp hd)
    have hr : 1 < a.radius + b.radius := by
      rcases hpos with h | h
      · exact absurd hcoin.symm h
      · exact h
    unfold resolveSeparate
    simp only
    rw [if_pos hd, if_pos hd]
    rw [if_pos (by linarith : (0:ℝ) < a.radius + b.radius - 1)]
    simp only
    rw [sep_diff, (vsub_eq_zero_iff _ _).mpr hcoin]
    have h1 : vnormalize ((1 : ℝ), (0 : ℝ)) = (1, 0) := by
      unfold vnormalize
      rw [vlength_eval 1 0 1 (by norm_num) (by norm_num)]
      unfold smul
      norm_num
    rw [h1]
    intro hzero
    have h2 := congrArg Prod.fst hzero
    unfold vadd smul at h2
    simp only at h2
    have : (0:ℝ) < a.radius + b.radius - 1 := by linarith
    nlinarith
  · have hd' : 0 < vlength (vsub b.position a.position) :=
      lt_of_le_of_ne (vlength_nonneg _) (Ne.symm hd)
    have hne : vsub b.position a.position ≠ (0, 0) :=
      fun h => hd ((vlength_eq_zero_iff _).mpr h)
    by_cases hov : vlength (vsub b.position a.position) < a.radius + b.radius
    · rw [resolveSeparate_overlap a b hd' hov]
      set d := vlength (vsub b.position a.position) with hdd
      have hk : 0 < 1 + (a.radius + b.radius - d + 0.2) / d := by
        have : 0 < (a.radius + b.radius - d + 0.2) / d := div_pos (by linarith) hd'
        linarith
      intro h
      exact hne ((smul_eq_zero_iff _ _ hk.ne').mp h)
    · unfold resolveSeparate
      simp only
      rw [if_neg hd, if_neg hd]
      rw [if_neg (by push_neg at hov ⊢; linarith)]
      exact hne

/-- The unit collision normal of the resolver (recomputed from the separated
positions, physics.py line 83-86). -/
noncomputable def collisionNormal (a b : Ball) : Vec :=
  vnormalize (vsub (resolveSeparate a b).2 (resolveSeparate a b).1)

/-- Ball a's velocity after the equal-mass normal-component swap, before the
speed boost (physics.py lines 89-98). -/
noncomputable def swappedVelA (a b : Ball) : Vec :=
  vadd (smul (dot b.velocity (collisionNormal a b)) (collisionNormal a b))
    (smul (dot a.velocity (perp (collisionNormal a b))) (perp (collisionNormal a b)))

/-- Ball b's velocity after the swap, before the speed boost. -/
noncomputable def swappedVelB (a b : Ball) : Vec :=
  vadd (smul (dot a.velocity (collisionNormal a b)) (collisionNormal a b))
    (smul (dot b.velocity (perp (collisionNormal a b))) (perp (collisionNormal a b)))

/-- Unfolding of the resolver when the degenerate early return is not taken. -/
theorem resolve_eq_of_ne (a b : Ball) (f : ℝ)
    (hn0 : vsub (resolveSeparate a b).2 (resolveSeparate a b).1 ≠ (0, 0)) :
    resolve_ball_ball_collision a b f =
      ({ a with position := (resolveSeparate a b).1
                velocity := speedBoost (swappedVelA a b) f },
       { b with position := (resolveSeparate a b).2
                velocity := speedBoost (swappedVelB a b) f }) := by
  unfold resolve_ball_ball_collision swappedVelA swappedVelB collisionNormal
  simp only
  rw [if_neg (fun h => hn0 ((lengthSq_eq_zero_iff _).mp h))]

/-- Unfolding of the resolver in the degenerate early return. -/
theorem resolve_eq_of_degenerate (a b : Ball) (f : ℝ)
    (hn0 : vsub (resolveSeparate a b).2 (resolveSeparate a b).1 = (0, 0)) :
    resolve_ball_ball_collision a b f =
      ({ a with position := (resolveSeparate a b).1 },
       { b with position := (resolveSeparate a b).2 }) := by
  unfold resolve_ball_ball_collision
  simp only
  rw [if_pos ((lengthSq_eq_zero_iff _).mpr hn0)]

theorem lengthSq_pos_iff (v : Vec) : 0 < lengthSq v ↔ v ≠ (0, 0) := by
  constructor
  · intro h hv
    rw [(lengthSq_eq_zero_iff v).mpr hv] at h
    exact lt_irrefl 0 h
  · intro hv
    exact lt_of_le_of_ne (lengthSq_nonneg v) (fun h => hv ((lengthSq_eq_zero_iff v).mp h.symm))

/-- The speed after the boost step: min(speed * (1 + factor), MAX_SPEED) for a
nonzero incoming velocity, zero otherwise (requires a nonnegative factor). -/
theorem vlength_speedBoost (v : Vec) (f : ℝ) (hf : 0 ≤ f) :
    vlength (speedBoost v f) =
      if 0 < vlength v then min (vlength v * (1 + f)) MAX_SPEED else 0 := by
  unfold speedBoost
  by_cases hv : v = (0, 0)
  · rw [if_neg (by rw [(lengthSq_eq_zero_iff v).mpr hv]; exact lt_irrefl 0)]
    rw [if_neg (by rw [(vlength_eq_zero_iff v).mpr hv]; exact lt_irrefl 0)]
    rw [(vlength_eq_zero_iff v).mpr hv]
  · have hsq : 0 < lengthSq v := (lengthSq_pos_iff v).mpr hv
    have hL : 0 < vlength v := vlength_pos v hv
    rw [if_pos hsq]
    simp only
    have hns : 0 < min (vlength v * (1 + f)) MAX_SPEED := by
      apply lt_min
      · exact mul_pos hL (by linarith)
      · norm_num [MAX_SPEED]
    rw [if_pos hns, if_pos hL]
    exact vlength_scale_to_length v _ hv hns.le

/-- The boost step is capped at MAX_SPEED (for a nonnegative factor). -/
theorem vlength_speedBoost_le (v : Vec) (f : ℝ) (hf : 0 ≤ f) :
    vlength (speedBoost v f) ≤ MAX_SPEED := by
  rw [vlength_speedBoost v f hf]
  split_ifs
  · exact min_le_right _ _
  · norm_num [MAX_SPEED]

/-- With factor 0 the boost is the identity on velocities within MAX_SPEED. -/
theorem speedBoost_id (v : Vec) (hv : vlength v ≤ MAX_SPEED) : speedBoost v 0 = v := by
  unfold speedBoost
  by_cases h : 0 < lengthSq v
  · have hvne : v ≠ (0, 0) := (lengthSq_pos_iff v).mp h
    have hL : 0 < vlength v := vlength_pos v hvne
    rw [if_pos h]
    simp only [add_zero, mul_one]
    rw [min_eq_left hv, if_pos hL]
    unfold scale_to_length
    rw [div_self hL.ne', smul_one']
  · rw [if_neg h]

theorem dot_combo_normal (α β : ℝ) (u : Vec) (hu : lengthSq u = 1) :
    dot (vadd (smul α u) (smul β (perp u))) u = α := by
  unfold lengthSq at hu
  unfold dot at hu ⊢
  unfold vadd smul perp
  simp only
  linear_combination α * hu

theorem dot_combo_tangent (α β : ℝ) (u : Vec) (hu : lengthSq u = 1) :
    dot (vadd (smul α u) (smul β (perp u))) (perp u) = β := by
  unfold lengthSq at hu
  unfold dot at hu ⊢
  unfold vadd smul perp
  simp only
  linear_combination β * hu

/-- The velocity produced by Ball.update in the bounce branch: the reflected
velocity rescaled to min(speed + boost, MAX_SPEED) when nonzero. -/
theorem Ball.update_velocity_bounce (b : Ball) (dt : ℝ) (boundary_center : Vec)
    (boundary_radius : ℝ) (angles : ℕ → ℝ)
    (hcol : boundary_radius <
      vlength (vsub (vadd b.position (smul dt b.velocity)) boundary_center) + b.radius) :
    (Ball.update b dt boundary_center boundary_radius angles).velocity =
      (if 0 < vlength (reflect b.velocity
            (boundaryNormal (vsub (vadd b.position (smul dt b.velocity)) boundary_center)))
       then scale_to_length
          (reflect b.velocity
            (boundaryNormal (vsub (vadd b.position (smul dt b.velocity)) boundary_center)))
          (min (vlength (reflect b.velocity
              (boundaryNormal (vsub (vadd b.position (smul dt b.velocity)) boundary_center))) +
            b.boundary_speed_increase) MAX_SPEED)
       else reflect b.velocity
          (boundaryNormal (vsub (vadd b.position (smul dt b.velocity)) boundary_center))) := by
  unfold Ball.update add_random_lines
  simp only
  rw [if_pos hcol]
  split_ifs <;> rfl

/-- The speed produced by the bounce branch of Ball.update. -/
theorem vlength_update_velocity_bounce (b : Ball) (dt : ℝ) (boundary_center : Vec)
    (boundary_radius : ℝ) (angles : ℕ → ℝ)
    (hinc : 0 ≤ b.boundary_speed_increase)
    (hcol : boundary_radius <
      vlength (vsub (vadd b.position (smul dt b.velocity)) boundary_center) + b.radius) :
    vlength (Ball.update b dt boundary_center boundary_radius angles).velocity =
      (if 0 < vlength (reflect b.velocity
            (boundaryNormal (vsub (vadd b.position (smul dt b.velocity)) boundary_center)))
       then min (vlength (reflect b.velocity
            (boundaryNormal (vsub (vadd b.position (smul dt b.velocity)) boundary_center))) +
          b.boundary_speed_increase) MAX_SPEED
       else 0) := by
  rw [Ball.update_velocity_bounce b dt boundary_center boundary_radius angles hcol]
  split_ifs with h
  · have hvne : reflect b.velocity
        (boundaryNormal (vsub (vadd b.position (smul dt b.velocity)) boundary_center)) ≠ (0, 0) := by
      intro h0
      rw [(vlength_eq_zero_iff _).mpr h0] at h
      exact lt_irrefl 0 h
    have hmin : 0 ≤ min (vlength (reflect b.velocity
        (boundaryNormal (vsub (vadd b.position (smul dt b.velocity)) boundary_center))) +
        b.boundary_speed_increase) MAX_SPEED :=
      le_min (by linarith) (by norm_num [MAX_SPEED])
    exact vlength_scale_to_length _ _ hvne hmin
  · exact le_antisymm (not_lt.mp h) (vlength_nonneg _)

/-- C7 (amended): with nonnegative speed factors, and excluding the documented
degenerate early return of the resolver (coincident corrected centers), every
speed is capped at MAX_SPEED after a ball-ball resolution and after the bounce
branch of Ball.update, with the exact min(...) formulas of the source. -/
theorem claim_C7_amended_speed_cap (a b : Ball) (f : ℝ) (c : Ball) (dt : ℝ)
    (bc : Vec) (R : ℝ) (angles : ℕ → ℝ)
    (hf : 0 ≤ f)
    (hinc : 0 ≤ c.boundary_speed_increase)
    (hpos : a.position ≠ b.position ∨ 1 < a.radius + b.radius)
    (hbounce : R < vlength (vsub (vadd c.position (smul dt c.velocity)) bc) + c.radius) :
    vlength (resolve_ball_ball_collision a b f).1.velocity ≤ MAX_SPEED ∧
    vlength (resolve_ball_ball_collision a b f).2.velocity ≤ MAX_SPEED ∧
    vlength (resolve_ball_ball_collision a b f).1.velocity =
      (if 0 < vlength (swappedVelA a b)
       then min (vlength (swappedVelA a b) * (1 + f)) MAX_SPEED else 0) ∧
    vlength (resolve_ball_ball_collision a b f).2.velocity =
      (if 0 < vlength (swappedVelB a b)
       then min (vlength (swappedVelB a b) * (1 + f)) MAX_SPEED else 0) ∧
    vlength (Ball.update c dt bc R angles).velocity ≤ MAX_SPEED ∧
    vlength (Ball.update c dt bc R angles).velocity =
      (if 0 < vlength (reflect c.velocity
            (boundaryNormal (vsub (vadd c.position (smul dt c.velocity)) bc)))
       then min (vlength (reflect c.velocity
            (boundaryNormal (vsub (vadd c.position (smul dt c.velocity)) bc))) +
          c.boundary_speed_increase) MAX_SPEED
       else 0) := by
  have hn0 := resolveSeparate_sub_ne a b hpos
  rw [resolve_eq_of_ne a b f hn0]
  simp only
  refine ⟨vlength_speedBoost_le _ f hf, vlength_speedBoost_le _ f hf,
    vlength_speedBoost _ f hf, vlength_speedBoost _ f hf, ?_, ?_⟩
  · rw [vlength_update_velocity_bounce c dt bc R angles hinc hbounce]
    split_ifs
    · exact min_le_right _ _
    · norm_num [MAX_SPEED]
  · exact vlength_update_velocity_bounce c dt bc R angles hinc hbounce

def capBallA : Ball :=
  { id := 0, position := (0, 0), velocity := (0, 0), color := (0, 0, 0),
    radius := 12, lines := [], boundary_cooldown := 0, lines_per_hit := 0,
    boundary_speed_increase := 0, lines_removed_by_me := 0,
    my_lines_removed_by_others := 0 }

def capBallB : Ball := { capBallA with id := 1, position := (10, 0) }

theorem claim_C7_amended_speed_cap_witness :
    ((0 : ℝ) ≤ 0 ∧ (0 : ℝ) ≤ capBallA.boundary_speed_increase ∧
     (capBallA.position ≠ capBallB.position ∨ 1 < capBallA.radius + capBallB.radius) ∧
     (1 : ℝ) < vlength (vsub (vadd capBallA.position (smul 0 capBallA.velocity)) (0, 0)) +
       capBallA.radius) ∧
    (vlength (resolve_ball_ball_collision capBallA capBallB 0).1.velocity ≤ MAX_SPEED ∧
     vlength (resolve_ball_ball_collision capBallA capBallB 0).2.velocity ≤ MAX_SPEED ∧
     vlength (resolve_ball_ball_collision capBallA capBallB 0).1.velocity =
       (if 0 < vlength (swappedVelA capBallA capBallB)
        then min (vlength (swappedVelA capBallA capBallB) * (1 + 0)) MAX_SPEED else 0) ∧
     vlength (resolve_ball_ball_collision capBallA capBallB 0).2.velocity =
       (if 0 < vlength (swappedVelB capBallA capBallB)
        then min (vlength (swappedVelB capBallA capBallB) * (1 + 0)) MAX_SPEED else 0) ∧
     vlength (Ball.update capBallA 0 (0, 0) 1 (fun _ => 0)).velocity ≤ MAX_SPEED ∧
     vlength (Ball.update capBallA 0 (0, 0) 1 (fun _ => 0)).velocity =
       (if 0 < vlength (reflect capBallA.velocity
             (boundaryNormal (vsub (vadd capBallA.position (smul 0 capBallA.velocity)) (0, 0))))
        then min (vlength (reflect capBallA.velocity
             (boundaryNormal (vsub (vadd capBallA.position (smul 0 capBallA.velocity)) (0, 0)))) +
           capBallA.boundary_speed_increase) MAX_SPEED
        else 0)) :=
  ⟨⟨le_refl 0, le_refl 0,
    Or.inl (by norm_num [capBallA, capBallB, Prod.ext_iff]),
    by norm_num [capBallA, vadd, vsub, smul, vlength, lengthSq, dot]⟩,
   claim_C7_amended_speed_cap capBallA capBallB 0 capBallA 0 (0, 0) 1 (fun _ => 0)
     (le_refl 0) (le_refl 0)
     (Or.inl (by norm_num [capBallA, capBallB, Prod.ext_iff]))
     (by norm_num [capBallA, vadd, vsub, smul, vlength, lengthSq, dot])⟩

/-- Two radius-0 balls at the same point: the resolver's degenerate early
return leaves an over-cap speed untouched. -/
def degBallA : Ball :=
  { id := 0, position := (0, 0), velocity := (800, 0), color := (0, 0, 0),
    radius := 0, lines := [], boundary_cooldown := 0, lines_per_hit := 0,
    boundary_speed_increase := 0, lines_removed_by_me := 0,
    my_lines_removed_by_others := 0 }

def degBallB : Ball :=
  { id := 1, position := (0, 0), velocity := (0, 0), color := (0, 0, 0),
    radius := 0, lines := [], boundary_cooldown := 0, lines_per_hit := 0,
    boundary_speed_increase := 0, lines_removed_by_me := 0,
    my_lines_removed_by_others := 0 }

theorem degBalls_separate : resolveSeparate degBallA degBallB = ((0, 0), (0, 0)) := by
  unfold resolveSeparate degBallA degBallB
  norm_num [vsub, vlength, lengthSq, dot]

/-- C7 counterexample: with speed factor 0 (nonnegative), after the resolver
returns on two coincident radius-0 balls the first ball's speed is 800, which
exceeds MAX_SPEED: the claimed unconditional cap is false. -/
theorem claim_C7_counterexample :
    (0 : ℝ) ≤ 0 ∧
    ¬ vlength (resolve_ball_ball_collision degBallA degBallB 0).1.velocity ≤ MAX_SPEED := by
  refine ⟨le_refl 0, ?_⟩
  have hn0 : vsub (resolveSeparate degBallA degBallB).2
      (resolveSeparate degBallA degBallB).1 = (0, 0) := by
    rw [degBalls_separate]
    exact (vsub_eq_zero_iff _ _).mpr rfl
  rw [resolve_eq_of_degenerate degBallA degBallB 0 hn0]
  simp only
  have : degBallA.velocity = ((800 : ℝ), (0 : ℝ)) := rfl
  rw [this, vlength_eval 800 0 800 (by norm_num) (by norm_num)]
  norm_num [MAX_SPEED]

/-- In the genuine-overlap case the recomputed normal equals the unit vector
along the original center line (the separation is a positive rescaling). -/
theorem collisionNormal_eq (a b : Ball)
    (hd : 0 < vlength (vsub b.position a.position))
    (hlt : vlength (vsub b.position a.position) < a.radius + b.radius) :
    collisionNormal a b = vnormalize (vsub b.position a.position) := by
  unfold collisionNormal
  rw [resolveSeparate_overlap a b hd hlt]
  apply vnormalize_smul_pos
  · have : 0 < (a.radius + b.radius - vlength (vsub b.position a.position) + 0.2) /
        vlength (vsub b.position a.position) := div_pos (by linarith) hd
    linarith
  · exact fun h => hd.ne' ((vlength_eq_zero_iff _).mpr h)

/-- C4 (amended): for genuinely overlapping balls at positive center distance,
the resolver separates them to distance d + overlap + 0.2 ≥ sum of radii, and
— provided the swapped velocities do not exceed MAX_SPEED, so that the factor-0
boost is the identity — the normal velocity components are exactly exchanged
and the tangential components preserved. -/
theorem claim_C4_amended_elastic_exchange (a b : Ball)
    (hd : 0 < vlength (vsub b.position a.position))
    (hlt : vlength (vsub b.position a.position) < a.radius + b.radius)
    (hsa : vlength (swappedVelA a b) ≤ MAX_SPEED)
    (hsb : vlength (swappedVelB a b) ≤ MAX_SPEED) :
    vlength (vsub (resolve_ball_ball_collision a b 0).2.position
        (resolve_ball_ball_collision a b 0).1.position) =
      vlength (vsub b.position a.position) +
        (a.radius + b.radius - vlength (vsub b.position a.position)) + 0.2 ∧
    a.radius + b.radius ≤ vlength (vsub (resolve_ball_ball_collision a b 0).2.position
        (resolve_ball_ball_collision a b 0).1.position) ∧
    dot (resolve_ball_ball_collision a b 0).1.velocity
        (vnormalize (vsub b.position a.position)) =
      dot b.velocity (vnormalize (vsub b.position a.position)) ∧
    dot (resolve_ball_ball_collision a b 0).1.velocity
        (perp (vnormalize (vsub b.position a.position))) =
      dot a.velocity (perp (vnormalize (vsub b.position a.position))) ∧
    dot (resolve_ball_ball_collision a b 0).2.velocity
        (vnormalize (vsub b.position a.position)) =
      dot a.velocity (vnormalize (vsub b.position a.position)) ∧
    dot (resolve_ball_ball_collision a b 0).2.velocity
        (perp (vnormalize (vsub b.position a.position))) =
      dot b.velocity (perp (vnormalize (vsub b.position a.position))) := by
  have hne : vsub b.position a.position ≠ (0, 0) :=
    fun h => hd.ne' ((vlength_eq_zero_iff _).mpr h)
  have hpos : a.position ≠ b.position ∨ 1 < a.radius + b.radius := by
    left
    intro h
    exact hne ((vsub_eq_zero_iff _ _).mpr h.symm)
  have hn0 := resolveSeparate_sub_ne a b hpos
  have hdist := resolveSeparate_distance a b hd hlt
  have hu : lengthSq (vnormalize (vsub b.position a.position)) = 1 :=
    lengthSq_vnormalize _ hne
  have hcn := collisionNormal_eq a b hd hlt
  rw [resolve_eq_of_ne a b 0 hn0]
  simp only
  rw [speedBoost_id _ hsa, speedBoost_id _ hsb]
  unfold swappedVelA swappedVelB
  rw [hcn]
  refine ⟨hdist, by rw [hdist]; linarith, ?_, ?_, ?_, ?_⟩
  · exact dot_combo_normal _ _ _ hu
  · exact dot_combo_tangent _ _ _ hu
  · exact dot_combo_normal _ _ _ hu
  · exact dot_combo_tangent _ _ _ hu

/-! Concrete balls for settling claim C4: two radius-12 balls with centers 10
apart on the x-axis; the second ball's velocity is a parameter. -/

def cexBallA : Ball :=
  { id := 0, position := (0, 0), velocity := (0, 0), color := (0, 0, 0),
    radius := 12, lines := [], boundary_cooldown := 0, lines_per_hit := 0,
    boundary_speed_increase := 0, lines_removed_by_me := 0,
    my_lines_removed_by_others := 0 }

def cexBallB (v : Vec) : Ball :=
  { id := 1, position := (10, 0), velocity := v, color := (0, 0, 0),
    radius := 12, lines := [], boundary_cooldown := 0, lines_per_hit := 0,
    boundary_speed_increase := 0, lines_removed_by_me := 0,
    my_lines_removed_by_others := 0 }

theorem cex_diff (v : Vec) :
    vsub (cexBallB v).position cexBallA.position = (10, 0) := by
  norm_num [cexBallA, cexBallB, vsub]

theorem cex_dist (v : Vec) :
    vlength (vsub (cexBallB v).position cexBallA.position) = 10 := by
  rw [cex_diff]
  exact vlength_eval 10 0 10 (by norm_num) (by norm_num)

theorem vnormalize_ten : vnormalize ((10 : ℝ), (0 : ℝ)) = (1, 0) := by
  unfold vnormalize
  rw [vlength_eval 10 0 10 (by norm_num) (by norm_num)]
  norm_num [smul]

theorem cex_normal (v : Vec) : collisionNormal cexBallA (cexBallB v) = (1, 0) := by
  rw [collisionNormal_eq cexBallA (cexBallB v)
    (by rw [cex_dist]; norm_num)
    (by rw [cex_dist]; norm_num [cexBallA, cexBallB]), cex_diff, vnormalize_ten]

theorem cex_swappedA (v : Vec) : swappedVelA cexBallA (cexBallB v) = (v.1, 0) := by
  unfold swappedVelA
  rw [cex_normal]
  norm_num [cexBallA, cexBallB, dot, perp, smul, vadd]

theorem cex_swappedB (v : Vec) : swappedVelB cexBallA (cexBallB v) = (0, v.2) := by
  unfold swappedVelB
  rw [cex_normal]
  norm_num [cexBallA, cexBallB, dot, perp, smul, vadd]

theorem cex_resolve_not_degenerate (v : Vec) :
    vsub (resolveSeparate cexBallA (cexBallB v)).2
      (resolveSeparate cexBallA (cexBallB v)).1 ≠ (0, 0) := by
  apply resolveSeparate_sub_ne
  left
  intro h
  have h1 := congrArg Prod.fst h
  norm_num [cexBallA, cexBallB] at h1

theorem speedBoost_hot : speedBoost ((-1400 : ℝ), (0 : ℝ)) 0 = (-700, 0) := by
  unfold speedBoost
  rw [if_pos (by norm_num [lengthSq, dot] : (0:ℝ) < lengthSq ((-1400 : ℝ), (0 : ℝ)))]
  simp only
  rw [vlength_eval (-1400) 0 1400 (by norm_num) (by norm_num)]
  rw [show min ((1400 : ℝ) * (1 + 0)) MAX_SPEED = 700 by norm_num [MAX_SPEED]]
  rw [if_pos (by norm_num : (0:ℝ) < 700)]
  unfold scale_to_length
  rw [vlength_eval (-1400) 0 1400 (by norm_num) (by norm_num)]
  norm_num [smul]

/-- C4 counterexample: with the claim's own hypotheses (0 < d < r_a + r_b,
factor 0), a ball whose swapped velocity is 1400 gets clamped to MAX_SPEED,
so its post-call normal component (-700) is not the other ball's pre-call
normal component (-1400): the claimed exact exchange is false. -/
theorem claim_C4_counterexample :
    0 < vlength (vsub (cexBallB (-1400, 0)).position cexBallA.position) ∧
    vlength (vsub (cexBallB (-1400, 0)).position cexBallA.position) <
      cexBallA.radius + (cexBallB (-1400, 0)).radius ∧
    ¬ (dot (resolve_ball_ball_collision cexBallA (cexBallB (-1400, 0)) 0).1.velocity
          (vnormalize (vsub (cexBallB (-1400, 0)).position cexBallA.position)) =
        dot (cexBallB (-1400, 0)).velocity
          (vnormalize (vsub (cexBallB (-1400, 0)).position cexBallA.position))) := by
  refine ⟨by rw [cex_dist]; norm_num, by rw [cex_dist]; norm_num [cexBallA, cexBallB], ?_⟩
  rw [resolve_eq_of_ne _ _ 0 (cex_resolve_not_degenerate (-1400, 0))]
  simp only
  rw [cex_swappedA, cex_diff, vnormalize_ten]
  simp only
  rw [speedBoost_hot]
  norm_num [cexBallB, dot]

theorem claim_C4_amended_elastic_exchange_witness :
    (0 < vlength (vsub (cexBallB (-100, 0)).position cexBallA.position) ∧
     vlength (vsub (cexBallB (-100, 0)).position cexBallA.position) <
       cexBallA.radius + (cexBallB (-100, 0)).radius ∧
     vlength (swappedVelA cexBallA (cexBallB (-100, 0))) ≤ MAX_SPEED ∧
     vlength (swappedVelB cexBallA (cexBallB (-100, 0))) ≤ MAX_SPEED) ∧
    (vlength (vsub (resolve_ball_ball_collision cexBallA (cexBallB (-100, 0)) 0).2.position
        (resolve_ball_ball_collision cexBallA (cexBallB (-100, 0)) 0).1.position) =
      vlength (vsub (cexBallB (-100, 0)).position cexBallA.position) +
        (cexBallA.radius + (cexBallB (-100, 0)).radius -
          vlength (vsub (cexBallB (-100, 0)).position cexBallA.position)) + 0.2 ∧
    cexBallA.radius + (cexBallB (-100, 0)).radius ≤
      vlength (vsub (resolve_ball_ball_collision cexBallA (cexBallB (-100, 0)) 0).2.position
        (resolve_ball_ball_collision cexBallA (cexBallB (-100, 0)) 0).1.position) ∧
    dot (resolve_ball_ball_collision cexBallA (cexBallB (-100, 0)) 0).1.velocity
        (vnormalize (vsub (cexBallB (-100, 0)).position cexBallA.position)) =
      dot (cexBallB (-100, 0)).velocity
        (vnormalize (vsub (cexBallB (-100, 0)).position cexBallA.position)) ∧
    dot (resolve_ball_ball_collision cexBallA (cexBallB (-100, 0)) 0).1.velocity
        (perp (vnormalize (vsub (cexBallB (-100, 0)).position cexBallA.position))) =
      dot cexBallA.velocity
        (perp (vnormalize (vsub (cexBallB (-100, 0)).position cexBallA.position))) ∧
    dot (resolve_ball_ball_collision cexBallA (cexBallB (-100, 0)) 0).2.velocity
        (vnormalize (vsub (cexBallB (-100, 0)).position cexBallA.position)) =
      dot cexBallA.velocity
        (vnormalize (vsub (cexBallB (-100, 0)).position cexBallA.position)) ∧
    dot (resolve_ball_ball_collision cexBallA (cexBallB (-100, 0)) 0).2.velocity
        (perp (vnormalize (vsub (cexBallB (-100, 0)).position cexBallA.position))) =
      dot (cexBallB (-100, 0)).velocity
        (perp (vnormalize (vsub (cexBallB (-100, 0)).position cexBallA.position)))) :=
  ⟨⟨by rw [cex_dist]; norm_num,
    by rw [cex_dist]; norm_num [cexBallA, cexBallB],
    by rw [cex_swappedA, vlength_eval (-100) 0 100 (by norm_num) (by norm_num)]
       norm_num [MAX_SPEED],
    by rw [cex_swappedB]
       have h0 : vlength ((0 : ℝ), (((-100 : ℝ), (0 : ℝ)) : Vec).2) = 0 :=
         (vlength_eq_zero_iff _).mpr (by norm_num)
       rw [h0]
       norm_num [MAX_SPEED]⟩,
   claim_C4_amended_elastic_exchange cexBallA (cexBallB (-100, 0))
     (by rw [cex_dist]; norm_num)
     (by rw [cex_dist]; norm_num [cexBallA, cexBallB])
     (by rw [cex_swappedA, vlength_eval (-100) 0 100 (by norm_num) (by norm_num)]
         norm_num [MAX_SPEED])
     (by rw [cex_swappedB]
         have h0 : vlength ((0 : ℝ), (((-100 : ℝ), (0 : ℝ)) : Vec).2) = 0 :=
           (vlength_eq_zero_iff _).mpr (by norm_num)
         rw [h0]
         norm_num [MAX_SPEED])⟩

/-! Settings (src/settings.py). The source field boundary_radius_*ratio*
is embedded as boundary_radius_scale. -/

structure Settings where
  num_balls : ℕ
  lines_per_boundary_hit : ℕ
  ball_collision_speed_increase_factor : ℝ
  boundary_collision_speed_increase : ℝ
  boundary_radius_scale : ℝ
  colors : List (ℕ × ℕ × ℕ)

/-- The random draws consumed while spawning balls (Game._spawn_balls and the
initial add_random_lines): for ball i and attempt j, rad models the
uniform(0.15, 0.75) draw and ang the random()*tau draw of the candidate
position; speed and dir model the initial velocity draws; lineAng the anchor
angles of the initial lines. -/
structure SpawnOracle where
  rad : ℕ → ℕ → ℝ
  ang : ℕ → ℕ → ℝ
  speed : ℕ → ℝ
  dir : ℕ → ℝ
  lineAng : ℕ → ℕ → ℝ

/-- Game._position_is_free: inside the boundary and at distance at least
2.2 * BALL_RADIUS from every already-spawned ball. -/
noncomputable def position_is_free (pos boundary_center : Vec) (boundary_radius : ℝ)
    (balls : List Ball) : Prop :=
  ¬ (boundary_radius < vlength (vsub pos boundary_center) + BALL_RADIUS) ∧
  ∀ other ∈ balls, ¬ (vlength (vsub pos other.position) < BALL_RADIUS * 2.2)

noncomputable instance (pos boundary_center : Vec) (boundary_radius : ℝ)
    (balls : List Ball) :
    Decidable (position_is_free pos boundary_center boundary_radius balls) := by
  unfold position_is_free
  infer_instance

/-- The candidate spawn position for ball i, attempt att. -/
noncomputable def spawnCandidate (boundary_center : Vec) (boundary_radius : ℝ)
    (or : SpawnOracle) (i att : ℕ) : Vec :=
  vadd boundary_center
    (smul (or.rad i att * (boundary_radius - BALL_RADIUS - 2))
      (Real.cos (or.ang i att), Real.sin (or.ang i att)))

/-- The 1000-attempt rejection loop of Game._spawn_balls. -/
noncomputable def findFreePos (boundary_center : Vec) (boundary_radius : ℝ)
    (or : SpawnOracle) (i : ℕ) (balls : List Ball) : Option Vec :=
  (List.range 1000).findSome? fun att =>
    let cand := spawnCandidate boundary_center boundary_radius or i att
    if position_is_free cand boundary_center boundary_radius balls then some cand
    else none

/-- One iteration of Game._spawn_balls: ball i spawned against the balls
already placed (falling back to the boundary center after 1000 attempts),
with INITIAL_LINES_PER_BALL initial lines. -/
noncomputable def spawnBall (s : Settings) (boundary_center : Vec)
    (boundary_radius : ℝ) (or : SpawnOracle) (i : ℕ) (balls : List Ball)
    (color : ℕ × ℕ × ℕ) : Ball :=
  let position := (findFreePos boundary_center boundary_radius or i balls).getD boundary_center
  let velocity := smul (or.speed i) (Real.cos (or.dir i), Real.sin (or.dir i))
  add_random_lines
    { id := i, position := position, velocity := velocity, color := color,
      radius := BALL_RADIUS, lines := [], boundary_cooldown := 0,
      lines_per_hit := s.lines_per_boundary_hit,
      boundary_speed_increase := s.boundary_collision_speed_increase,
      lines_removed_by_me := 0, my_lines_removed_by_others := 0 }
    boundary_center boundary_radius (or.lineAng i) INITIAL_LINES_PER_BALL

/-- Game._spawn_balls: none models the IndexError raised by
settings.colors[i] when the colors list is too short. -/
noncomputable def spawn_balls (s : Settings) (boundary_center : Vec)
    (boundary_radius : ℝ) (or : SpawnOracle) (count : ℕ) : Option (List Ball) :=
  (List.range count).foldl
    (fun acc i => acc.bind fun balls =>
      match s.colors[i]? with
      | none => none
      | some color =>
        some (balls ++ [spawnBall s boundary_center boundary_radius or i balls color]))
    (some [])

/-- Game state (src/game.py). all_balls holds the ids of the Ball objects it
references in Python; winner holds the referenced ball's state. -/
structure Game where
  boundary_center : Vec
  boundary_radius : ℝ
  settings : Settings
  balls : List Ball
  all_balls : List ℕ
  eliminated_balls : List Ball
  winner : Option Ball
  game_over : Bool
  game_start_time : Option ℝ

/-- Game.__init__ + Game.reset: clamp the radius scale to [0.3, 1], spawn
num_balls balls; construction fails (IndexError) iff spawning does. In the
source the spawn loop appends each new ball to both self.balls and
self.all_balls, so the list of references in all_balls is exactly the list
of ids of self.balls. -/
noncomputable def Game.init (s : Settings) (or : SpawnOracle) : Option Game :=
  let r := max 0.3 (min 1.0 s.boundary_radius_scale)
  let br := BOUNDARY_RADIUS * r
  (spawn_balls s BOUNDARY_CENTER br or s.num_balls).map fun bs =>
    { boundary_center := BOUNDARY_CENTER, boundary_radius := br, settings := s,
      balls := bs, all_balls := bs.map (fun b => b.id), eliminated_balls := [],
      winner := none, game_over := false, game_start_time := none }

/-! The per-tick pipeline of Game.update. -/

/-- The ordered pairs (i, j) with i < j < n, in the iteration order of the
collision double loop. -/
def pairsLT (n : ℕ) : List (ℕ × ℕ) :=
  (List.range n).flatMap fun i => ((List.range n).drop (i + 1)).map fun j => (i, j)

/-- All ordered pairs (mi, oi) with mi, oi < n, in the iteration order of the
severance double loop. -/
def pairsAll (n : ℕ) : List (ℕ × ℕ) :=
  (List.range n).flatMap fun mi => (List.range n).map fun oi => (mi, oi)

/-- One step of the ball-ball collision pass (game.py lines 100-106). -/
noncomputable def collisionStep (f : ℝ) (bs : List Ball) (p : ℕ × ℕ) : List Ball :=
  match bs[p.1]?, bs[p.2]? with
  | some a, some b =>
    if vlength (vsub a.position b.position) ≤ a.radius + b.radius then
      let ab := resolve_ball_ball_collision a b f
      (bs.set p.1 ab.1).set p.2 ab.2
    else bs
  | _, _ => bs

noncomputable def collisionPass (f : ℝ) (bs : List Ball) : List Ball :=
  (pairsLT bs.length).foldl (collisionStep f) bs

/-- State of the inner severance loop over one (mover, owner) pair:
the owner's live line list, the two counter increments, and the
to_eliminate queue (of ball ids). -/
structure SevAcc where
  ls : List Vec
  mc : ℕ
  oc : ℕ
  te : List ℕ

/-- The inner anchor loop (game.py lines 123-129): iterate over a snapshot of
owner.lines, removing hit anchors from the live list and queueing the owner
once its live list becomes empty. -/
noncomputable def sevInner (m o : Ball) (te0 : List ℕ) : SevAcc :=
  o.lines.foldl
    (fun acc anchor =>
      if circle_intersects_segment m.position m.radius anchor o.position then
        let ls := acc.ls.erase anchor
        let te := if ls.length = 0 ∧ o.id ∉ acc.te then acc.te ++ [o.id] else acc.te
        { ls := ls, mc := acc.mc + 1, oc := acc.oc + 1, te := te }
      else acc)
    { ls := o.lines, mc := 0, oc := 0, te := te0 }

/-- One (mover, owner) pair of the severance pass (game.py lines 118-129);
pairs with equal ids are skipped. -/
noncomputable def sevStep (st : List Ball × List ℕ) (p : ℕ × ℕ) : List Ball × List ℕ :=
  match st.1[p.1]?, st.1[p.2]? with
  | some m, some o =>
    if m.id = o.id then st
    else
      let acc := sevInner m o st.2
      let m' := { m with lines_removed_by_me := m.lines_removed_by_me + acc.mc }
      let o' := { o with lines := acc.ls
                         my_lines_removed_by_others := o.my_lines_removed_by_others + acc.oc }
      ((st.1.set p.1 m').set p.2 o', acc.te)
  | _, _ => st

noncomputable def severancePass (bs : List Ball) : List Ball × List ℕ :=
  (pairsAll bs.length).foldl sevStep (bs, [])

/-- One elimination (game.py lines 133-136): remove the referenced ball from
the alive list and append it to eliminated_balls. -/
def elimStep (st : List Ball × List Ball) (idn : ℕ) : List Ball × List Ball :=
  match st.1.find? (fun x => x.id == idn) with
  | some d => (st.1.eraseP (fun x => x.id == idn), st.2 ++ [d])
  | none => st

def elimPass (bs : List Ball) (te : List ℕ) (elim : List Ball) : List Ball × List Ball :=
  te.foldl elimStep (bs, elim)

/-- Steps 2-3 of Game.update: move every alive ball (handling boundary
bounces and line spawning) and run the pairwise collision pass. -/
noncomputable def prePhase (g : Game) (dt : ℝ) (oracle : ℕ → ℕ → ℝ) : List Ball :=
  collisionPass g.settings.ball_collision_speed_increase_factor
    (g.balls.map fun b =>
      Ball.update b dt g.boundary_center g.boundary_radius (oracle b.id))

/-- Steps 4-5 of Game.update: the severance pass, skipped entirely (with an
empty elimination queue) during the grace period. -/
noncomputable def sevOrGrace (balls2 : List Ball) (current_time t0 : ℝ) :
    List Ball × List ℕ :=
  if current_time - t0 < GRACE_PERIOD_DURATION then (balls2, [])
  else severancePass balls2

/-- Step 7 of Game.update: the victory check, applied to the updated state
(er = alive balls and eliminated list after elimination); records the session
start time. The source reads self.balls[0] for the winner, which under the
guard length = 1 is head?. -/
noncomputable def victoryCheck (g : Game) (t0 : ℝ) (er : List Ball × List Ball) :
    Game :=
  if er.1.length = 1 then
    { g with balls := er.1
             eliminated_balls := er.2
             game_start_time := some t0
             winner := er.1.head?
             game_over := true }
  else if er.1.length = 0 then
    { g with balls := er.1
             eliminated_balls := er.2
             game_start_time := some t0
             winner := none
             game_over := true }
  else
    { g with balls := er.1
             eliminated_balls := er.2
             game_start_time := some t0 }

/-- Game.update (game.py lines 90-144). current_time models
pygame.time.get_ticks()/1000; the oracle supplies the random line angles
drawn by ball id. -/
noncomputable def Game.update (g : Game) (dt : ℝ) (current_time : ℝ)
    (oracle : ℕ → ℕ → ℝ) : Game :=
  if g.game_over then g
  else
    let t0 := g.game_start_time.getD current_time
    let sv := sevOrGrace (prePhase g dt oracle) current_time t0
    victoryCheck g t0 (elimPass sv.1 sv.2 g.eliminated_balls)

/-! Structural lemmas about the update pipeline. -/

theorem foldl_inv {α β : Type _} (P : β → Prop) (f : β → α → β) :
    ∀ (l : List α) (b : β), P b → (∀ s a, P s → P (f s a)) → P (l.foldl f b) := by
  intro l
  induction l with
  | nil => intro b h0 _; exact h0
  | cons a l ih =>
    intro b h0 hs
    exact ih (f b a) (hs b a h0) hs

theorem collisionStep_length (f : ℝ) (bs : List Ball) (p : ℕ × ℕ) :
    (collisionStep f bs p).length = bs.length := by
  unfold collisionStep
  split
  · split_ifs <;> simp
  · rfl

theorem collisionPass_length (f : ℝ) (bs : List Ball) :
    (collisionPass f bs).length = bs.length := by
  unfold collisionPass
  exact foldl_inv (fun s => s.length = bs.length) _ _ bs rfl
    (fun s p hp => (collisionStep_length f s p).trans hp)

theorem sevStep_length (st : List Ball × List ℕ) (p : ℕ × ℕ) :
    (sevStep st p).1.length = st.1.length := by
  unfold sevStep
  split
  · split_ifs <;> simp
  · rfl

theorem severancePass_length (bs : List Ball) :
    (severancePass bs).1.length = bs.length := by
  unfold severancePass
  exact foldl_inv (fun s => s.1.length = bs.length) _ _ (bs, []) rfl
    (fun s p hp => (sevStep_length s p).trans hp)

theorem elimStep_fst_length (st : List Ball × List Ball) (i : ℕ) :
    (elimStep st i).1.length ≤ st.1.length := by
  unfold elimStep
  split
  · exact List.length_eraseP_le _
  · exact le_refl _

theorem elimStep_snd_extends (st : List Ball × List Ball) (i : ℕ) :
    ∃ t, (elimStep st i).2 = st.2 ++ t := by
  unfold elimStep
  split
  · exact ⟨[_], rfl⟩
  · exact ⟨[], (List.append_nil _).symm⟩

theorem elimPass_fst_length (bs : List Ball) (te : List ℕ) (elim : List Ball) :
    (elimPass bs te elim).1.length ≤ bs.length := by
  unfold elimPass
  refine (foldl_inv (fun s => s.1.length ≤ bs.length) _ _ (bs, elim) (le_refl _) ?_)
  exact fun s i hp => le_trans (elimStep_fst_length s i) hp

theorem elimPass_snd_extends (bs : List Ball) (te : List ℕ) (elim : List Ball) :
    ∃ t, (elimPass bs te elim).2 = elim ++ t := by
  unfold elimPass
  refine (foldl_inv (fun s => ∃ t, s.2 = elim ++ t) _ _ (bs, elim)
    ⟨[], (List.append_nil _).symm⟩ ?_)
  rintro s i ⟨t, ht⟩
  obtain ⟨t2, ht2⟩ := elimStep_snd_extends s i
  exact ⟨t ++ t2, by rw [ht2, ht, List.append_assoc]⟩

/-- The no-op case of Game.update. -/
theorem Game.update_of_game_over (g : Game) (dt current_time : ℝ) (oracle : ℕ → ℕ → ℝ)
    (h : g.game_over = true) : Game.update g dt current_time oracle = g := by
  unfold Game.update
  rw [if_pos h]

/-- Unfolding of Game.update on a live game. -/
theorem Game.update_live (g : Game) (dt current_time : ℝ) (oracle : ℕ → ℕ → ℝ)
    (h : g.game_over = false) :
    Game.update g dt current_time oracle =
      victoryCheck g (g.game_start_time.getD current_time)
        (elimPass
          (sevOrGrace (prePhase g dt oracle) current_time
            (g.game_start_time.getD current_time)).1
          (sevOrGrace (prePhase g dt oracle) current_time
            (g.game_start_time.getD current_time)).2
          g.eliminated_balls) := by
  unfold Game.update
  simp only [h, Bool.false_eq_true, if_false]

theorem victoryCheck_balls (g : Game) (t0 : ℝ) (er : List Ball × List Ball) :
    (victoryCheck g t0 er).balls = er.1 := by
  unfold victoryCheck
  split_ifs <;> rfl

theorem victoryCheck_eliminated (g : Game) (t0 : ℝ) (er : List Ball × List Ball) :
    (victoryCheck g t0 er).eliminated_balls = er.2 := by
  unfold victoryCheck
  split_ifs <;> rfl

theorem victoryCheck_all_balls (g : Game) (t0 : ℝ) (er : List Ball × List Ball) :
    (victoryCheck g t0 er).all_balls = g.all_balls := by
  unfold victoryCheck
  split_ifs <;> rfl

theorem victoryCheck_settings (g : Game) (t0 : ℝ) (er : List Ball × List Ball) :
    (victoryCheck g t0 er).settings = g.settings := by
  unfold victoryCheck
  split_ifs <;> rfl

theorem victoryCheck_winner (g : Game) (t0 : ℝ) (er : List Ball × List Ball) :
    (victoryCheck g t0 er).winner =
      (if er.1.length = 1 then er.1.head?
       else if er.1.length = 0 then none else g.winner) := by
  unfold victoryCheck
  split_ifs <;> rfl

theorem victoryCheck_game_over (g : Game) (t0 : ℝ) (er : List Ball × List Ball) :
    (victoryCheck g t0 er).game_over =
      (if er.1.length = 1 then true
       else if er.1.length = 0 then true else g.game_over) := by
  unfold victoryCheck
  split_ifs <;> rfl

theorem prePhase_length (g : Game) (dt : ℝ) (oracle : ℕ → ℕ → ℝ) :
    (prePhase g dt oracle).length = g.balls.length := by
  unfold prePhase
  rw [collisionPass_length, List.length_map]

theorem sevOrGrace_length (bs : List Ball) (current_time t0 : ℝ) :
    (sevOrGrace bs current_time t0).1.length = bs.length := by
  unfold sevOrGrace
  split_ifs
  · rfl
  · exact severancePass_length bs

/-- C1: after a non-no-op Game.update, one survivor becomes the winner and
ends the game; zero survivors end the game with no winner; with two or more
survivors, winner and game_over are unchanged. -/
theorem claim_C1_victory_check (g : Game) (dt current_time : ℝ) (oracle : ℕ → ℕ → ℝ)
    (h : g.game_over = false) :
    ((Game.update g dt current_time oracle).balls.length = 1 →
      ∃ b, (Game.update g dt current_time oracle).balls = [b] ∧
        (Game.update g dt current_time oracle).winner = some b ∧
        (Game.update g dt current_time oracle).game_over = true) ∧
    ((Game.update g dt current_time oracle).balls.length = 0 →
      (Game.update g dt current_time oracle).winner = none ∧
      (Game.update g dt current_time oracle).game_over = true) ∧
    (2 ≤ (Game.update g dt current_time oracle).balls.length →
      (Game.update g dt current_time oracle).winner = g.winner ∧
      (Game.update g dt current_time oracle).game_over = g.game_over) := by
  rw [Game.update_live g dt current_time oracle h]
  simp only [victoryCheck_balls, victoryCheck_winner, victoryCheck_game_over]
  refine ⟨fun h1 => ?_, fun h0 => ?_, fun h2 => ?_⟩
  · obtain ⟨b, hb⟩ := List.length_eq_one.mp h1
    refine ⟨b, hb, ?_, ?_⟩
    · rw [if_pos h1, hb]; rfl
    · rw [if_pos h1]
  · constructor <;> split_ifs <;> first | rfl | omega
  · constructor <;> split_ifs <;> first | rfl | omega

/-- C2: per-tick monotonicity: the alive count never increases, a finished
game is a strict no-op (so game_over never reverts), the winner-implies-over
invariant is preserved (so the winner, once set, is never reassigned), and
eliminated_balls only grows by appending. -/
theorem claim_C2_monotonicity (g : Game) (dt current_time : ℝ) (oracle : ℕ → ℕ → ℝ)
    (hw : g.winner = none ∨ g.game_over = true) :
    (Game.update g dt current_time oracle).balls.length ≤ g.balls.length ∧
    (g.game_over = true → Game.update g dt current_time oracle = g) ∧
    (g.game_over = true → (Game.update g dt current_time oracle).game_over = true) ∧
    ((Game.update g dt current_time oracle).winner = none ∨
      (Game.update g dt current_time oracle).game_over = true) ∧
    (∀ w, g.winner = some w → (Game.update g dt current_time oracle).winner = some w) ∧
    (∃ t, (Game.update g dt current_time oracle).eliminated_balls =
      g.eliminated_balls ++ t) := by
  cases hgo : g.game_over with
  | true =>
    rw [Game.update_of_game_over g dt current_time oracle hgo]
    exact ⟨le_refl _, fun _ => rfl, fun _ => hgo, hw, fun w hww => hww,
      ⟨[], (List.append_nil _).symm⟩⟩
  | false =>
    rw [Game.update_live g dt current_time oracle hgo]
    have hwn : g.winner = none := by
      rcases hw with h | h
      · exact h
      · rw [hgo] at h; exact absurd h (by simp)
    refine ⟨?_, ?_, ?_, ?_, ?_, ?_⟩
    · rw [victoryCheck_balls]
      calc (elimPass (sevOrGrace (prePhase g dt oracle) current_time
              (g.game_start_time.getD current_time)).1
            (sevOrGrace (prePhase g dt oracle) current_time
              (g.game_start_time.getD current_time)).2 g.eliminated_balls).1.length
          ≤ (sevOrGrace (prePhase g dt oracle) current_time
              (g.game_start_time.getD current_time)).1.length := elimPass_fst_length _ _ _
        _ = (prePhase g dt oracle).length := sevOrGrace_length _ _ _
        _ = g.balls.length := prePhase_length g dt oracle
    · intro hh; exact absurd hh (by simp)
    · intro hh; exact absurd hh (by simp)
    · rw [victoryCheck_winner, victoryCheck_game_over]
      by_cases h1 : (elimPass (sevOrGrace (prePhase g dt oracle) current_time
          (g.game_start_time.getD current_time)).1
          (sevOrGrace (prePhase g dt oracle) current_time
            (g.game_start_time.getD current_time)).2 g.eliminated_balls).1.length = 1
      · right; rw [if_pos h1]
      · by_cases h0 : (elimPass (sevOrGrace (prePhase g dt oracle) current_time
            (g.game_start_time.getD current_time)).1
            (sevOrGrace (prePhase g dt oracle) current_time
              (g.game_start_time.getD current_time)).2 g.eliminated_balls).1.length = 0
        · right; rw [if_neg h1, if_pos h0]
        · left; rw [if_neg h1, if_neg h0]; exact hwn
    · intro w hww
      rw [hwn] at hww
      exact absurd hww (by simp)
    · rw [victoryCheck_eliminated]
      exact elimPass_snd_extends _ _ _

/-! A minimal concrete game state used to discharge witness hypotheses. -/

def sWitness : Settings :=
  { num_balls := 0, lines_per_boundary_hit := 0,
    ball_collision_speed_increase_factor := 0,
    boundary_collision_speed_increase := 0, boundary_radius_scale := 1,
    colors := [] }

def gWitness : Game :=
  { boundary_center := (0, 0), boundary_radius := 0, settings := sWitness,
    balls := [], all_balls := [], eliminated_balls := [], winner := none,
    game_over := false, game_start_time := none }

theorem claim_C1_victory_check_witness :
    gWitness.game_over = false ∧
    (((Game.update gWitness 0 0 (fun _ _ => 0)).balls.length = 1 →
      ∃ b, (Game.update gWitness 0 0 (fun _ _ => 0)).balls = [b] ∧
        (Game.update gWitness 0 0 (fun _ _ => 0)).winner = some b ∧
        (Game.update gWitness 0 0 (fun _ _ => 0)).game_over = true) ∧
    ((Game.update gWitness 0 0 (fun _ _ => 0)).balls.length = 0 →
      (Game.update gWitness 0 0 (fun _ _ => 0)).winner = none ∧
      (Game.update gWitness 0 0 (fun _ _ => 0)).game_over = true) ∧
    (2 ≤ (Game.update gWitness 0 0 (fun _ _ => 0)).balls.length →
      (Game.update gWitness 0 0 (fun _ _ => 0)).winner = gWitness.winner ∧
      (Game.update gWitness 0 0 (fun _ _ => 0)).game_over = gWitness.game_over)) :=
  ⟨rfl, claim_C1_victory_check gWitness 0 0 (fun _ _ => 0) rfl⟩

theorem claim_C2_monotonicity_witness :
    (gWitness.winner = none ∨ gWitness.game_over = true) ∧
    ((Game.update gWitness 0 0 (fun _ _ => 0)).balls.length ≤ gWitness.balls.length ∧
    (gWitness.game_over = true → Game.update gWitness 0 0 (fun _ _ => 0) = gWitness) ∧
    (gWitness.game_over = true →
      (Game.update gWitness 0 0 (fun _ _ => 0)).game_over = true) ∧
    ((Game.update gWitness 0 0 (fun _ _ => 0)).winner = none ∨
      (Game.update gWitness 0 0 (fun _ _ => 0)).game_over = true) ∧
    (∀ w, gWitness.winner = some w →
      (Game.update gWitness 0 0 (fun _ _ => 0)).winner = some w) ∧
    (∃ t, (Game.update gWitness 0 0 (fun _ _ => 0)).eliminated_balls =
      gWitness.eliminated_balls ++ t)) :=
  ⟨Or.inl rfl, claim_C2_monotonicity gWitness 0 0 (fun _ _ => 0) (Or.inl rfl)⟩

/-! Pointwise relations between the alive list before and after a pass. -/

/-- Same ball, untouched lines and counters (what the collision resolver
guarantees: it only moves balls and changes velocities). -/
def CoreEq (x y : Ball) : Prop :=
  y.id = x.id ∧ y.lines = x.lines ∧
  y.lines_removed_by_me = x.lines_removed_by_me ∧
  y.my_lines_removed_by_others = x.my_lines_removed_by_others

/-- Same ball, untouched counters, lines only appended to (what a full grace
period tick guarantees). -/
def LinesExtends (x y : Ball) : Prop :=
  y.id = x.id ∧
  y.lines_removed_by_me = x.lines_removed_by_me ∧
  y.my_lines_removed_by_others = x.my_lines_removed_by_others ∧
  ∃ t, y.lines = x.lines ++ t

/-- Same ball id (what the severance pass guarantees). -/
def IdEq (x y : Ball) : Prop := y.id = x.id

/-- The pointwise lifting of a relation to lists of equal length. -/
def PW (R : Ball → Ball → Prop) (l l' : List Ball) : Prop :=
  l.length = l'.length ∧
  ∀ (i : ℕ) (h1 : i < l.length) (h2 : i < l'.length), R (l[i]) (l'[i])

theorem PW_refl {R : Ball → Ball → Prop} (hR : ∀ b, R b b) (l : List Ball) :
    PW R l l := ⟨rfl, fun _ _ _ => hR _⟩

theorem PW_map {R : Ball → Ball → Prop} (l : List Ball) (f : Ball → Ball)
    (hf : ∀ b, R b (f b)) : PW R l (l.map f) := by
  refine ⟨(List.length_map l f).symm, fun i h1 h2 => ?_⟩
  rw [List.getElem_map]
  exact hf _

theorem PW_set {R : Ball → Ball → Prop} {base l : List Ball} (h : PW R base l)
    (i : ℕ) (x : Ball)
    (hx : ∀ (h1 : i < base.length), R (base[i]) x) :
    PW R base (l.set i x) := by
  obtain ⟨hlen, hpt⟩ := h
  refine ⟨by rw [hlen, List.length_set], fun j h1 h2 => ?_⟩
  rw [List.getElem_set]
  split_ifs with hij
  · subst hij
    exact hx h1
  · exact hpt j h1 (by simpa using h2)

theorem resolve_core (a b : Ball) (f : ℝ) :
    CoreEq a (resolve_ball_ball_collision a b f).1 ∧
    CoreEq b (resolve_ball_ball_collision a b f).2 := by
  unfold resolve_ball_ball_collision CoreEq
  simp only
  split_ifs <;> exact ⟨⟨rfl, rfl, rfl, rfl⟩, ⟨rfl, rfl, rfl, rfl⟩⟩

theorem getElem?_bound_val {l : List Ball} {i : ℕ} {a : Ball} (h : l[i]? = some a) :
    ∃ hi : i < l.length, l[i] = a := by
  obtain ⟨hi, hv⟩ := List.getElem?_eq_some.mp h
  exact ⟨hi, hv⟩

/-- The collision step preserves any pointwise relation that absorbs CoreEq
on the right. -/
theorem collisionStep_pres {R : Ball → Ball → Prop}
    (Rcore : ∀ x y z, R x y → CoreEq y z → R x z)
    (base : List Ball) (f : ℝ) (bs : List Ball) (p : ℕ × ℕ)
    (h : PW R base bs) : PW R base (collisionStep f bs p) := by
  unfold collisionStep
  split
  case _ a b heq1 heq2 =>
    split_ifs with hdist
    · obtain ⟨hi1, hv1⟩ := getElem?_bound_val heq1
      obtain ⟨hi2, hv2⟩ := getElem?_bound_val heq2
      have hlen := h.1
      refine PW_set (PW_set h p.1 _ ?_) p.2 _ ?_
      · intro hb1
        refine Rcore _ a _ ?_ (resolve_core a b f).1
        have := h.2 p.1 hb1 hi1
        rwa [hv1] at this
      · intro hb2
        refine Rcore _ b _ ?_ (resolve_core a b f).2
        have := h.2 p.2 hb2 hi2
        rwa [hv2] at this
    · exact h
  case _ => exact h

theorem collisionPass_pres {R : Ball → Ball → Prop}
    (Rcore : ∀ x y z, R x y → CoreEq y z → R x z)
    (base : List Ball) (f : ℝ) (bs : List Ball)
    (h : PW R base bs) : PW R base (collisionPass f bs) := by
  unfold collisionPass
  exact foldl_inv (PW R base) _ _ bs h
    (fun s p hp => collisionStep_pres Rcore base f s p hp)

theorem Ball.update_extends (b : Ball) (dt : ℝ) (boundary_center : Vec)
    (boundary_radius : ℝ) (angles : ℕ → ℝ) :
    LinesExtends b (Ball.update b dt boundary_center boundary_radius angles) := by
  unfold Ball.update add_random_lines LinesExtends
  simp only
  split_ifs <;> refine ⟨rfl, rfl, rfl, ?_⟩ <;>
    first
      | exact ⟨spawnAnchors boundary_center boundary_radius angles b.lines_per_hit, rfl⟩
      | exact ⟨[], (List.append_nil b.lines).symm⟩

theorem LinesExtends_core (x y z : Ball) (h1 : LinesExtends x y) (h2 : CoreEq y z) :
    LinesExtends x z := by
  obtain ⟨hid, hm, ho, t, ht⟩ := h1
  obtain ⟨hid2, hl2, hm2, ho2⟩ := h2
  exact ⟨hid2.trans hid, hm2.trans hm, ho2.trans ho, t, hl2.trans ht⟩

/-- During a grace-period tick the pre-severance pipeline only extends lines
and keeps counters. -/
theorem prePhase_extends (g : Game) (dt : ℝ) (oracle : ℕ → ℕ → ℝ) :
    PW LinesExtends g.balls (prePhase g dt oracle) := by
  unfold prePhase
  exact collisionPass_pres LinesExtends_core g.balls _ _
    (PW_map g.balls _ (fun b => Ball.update_extends b dt _ _ _))

theorem elimPass_nil (bs : List Ball) (elim : List Ball) :
    elimPass bs [] elim = (bs, elim) := rfl

/-- C3: while the grace period is active (relative to the recorded or
just-recorded session start), Game.update removes no anchor from any ball's
lines, increments no severance counter, and eliminates no ball. -/
theorem claim_C3_grace_period (g : Game) (dt current_time : ℝ) (oracle : ℕ → ℕ → ℝ)
    (hgo : g.game_over = false)
    (hgrace : current_time - g.game_start_time.getD current_time <
      GRACE_PERIOD_DURATION) :
    (Game.update g dt current_time oracle).eliminated_balls = g.eliminated_balls ∧
    (Game.update g dt current_time oracle).balls.length = g.balls.length ∧
    ∀ (i : ℕ) (h1 : i < g.balls.length)
      (h2 : i < (Game.update g dt current_time oracle).balls.length),
      ((Game.update g dt current_time oracle).balls[i]).id = (g.balls[i]).id ∧
      ((Game.update g dt current_time oracle).balls[i]).lines_removed_by_me =
        (g.balls[i]).lines_removed_by_me ∧
      ((Game.update g dt current_time oracle).balls[i]).my_lines_removed_by_others =
        (g.balls[i]).my_lines_removed_by_others ∧
      ∃ t, ((Game.update g dt current_time oracle).balls[i]).lines =
        (g.balls[i]).lines ++ t := by
  rw [Game.update_live g dt current_time oracle hgo]
  have hsv : sevOrGrace (prePhase g dt oracle) current_time
      (g.game_start_time.getD current_time) = (prePhase g dt oracle, []) := by
    unfold sevOrGrace
    rw [if_pos hgrace]
  rw [hsv, elimPass_nil, victoryCheck_eliminated, victoryCheck_balls]
  have hpw := prePhase_extends g dt oracle
  refine ⟨rfl, hpw.1.symm, fun i h1 h2 => ?_⟩
  obtain ⟨hid, hm, ho, t, ht⟩ := hpw.2 i h1 h2
  exact ⟨hid, hm, ho, t, ht⟩

theorem claim_C3_grace_period_witness :
    (gWitness.game_over = false ∧
     (0 : ℝ) - gWitness.game_start_time.getD 0 < GRACE_PERIOD_DURATION) ∧
    ((Game.update gWitness 0 0 (fun _ _ => 0)).eliminated_balls =
       gWitness.eliminated_balls ∧
     (Game.update gWitness 0 0 (fun _ _ => 0)).balls.length =
       gWitness.balls.length ∧
     ∀ (i : ℕ) (h1 : i < gWitness.balls.length)
       (h2 : i < (Game.update gWitness 0 0 (fun _ _ => 0)).balls.length),
       ((Game.update gWitness 0 0 (fun _ _ => 0)).balls[i]).id =
         (gWitness.balls[i]).id ∧
       ((Game.update gWitness 0 0 (fun _ _ => 0)).balls[i]).lines_removed_by_me =
         (gWitness.balls[i]).lines_removed_by_me ∧
       ((Game.update gWitness 0 0 (fun _ _ => 0)).balls[i]).my_lines_removed_by_others =
         (gWitness.balls[i]).my_lines_removed_by_others ∧
       ∃ t, ((Game.update gWitness 0 0 (fun _ _ => 0)).balls[i]).lines =
         (gWitness.balls[i]).lines ++ t) :=
  ⟨⟨rfl, by norm_num [gWitness, GRACE_PERIOD_DURATION]⟩,
   claim_C3_grace_period gWitness 0 0 (fun _ _ => 0) rfl
     (by norm_num [gWitness, GRACE_PERIOD_DURATION])⟩

/-! Spawning lemmas (claim C8 and the initial-state parts of C9/C10). -/

theorem spawn_balls_zero (s : Settings) (boundary_center : Vec) (boundary_radius : ℝ)
    (or : SpawnOracle) : spawn_balls s boundary_center boundary_radius or 0 = some [] := rfl

theorem spawn_balls_succ (s : Settings) (boundary_center : Vec) (boundary_radius : ℝ)
    (or : SpawnOracle) (n : ℕ) :
    spawn_balls s boundary_center boundary_radius or (n + 1) =
      (spawn_balls s boundary_center boundary_radius or n).bind fun balls =>
        match s.colors[n]? with
        | none => none
        | some color =>
          some (balls ++ [spawnBall s boundary_center boundary_radius or n balls color]) := by
  unfold spawn_balls
  rw [List.range_succ n, List.foldl_append]
  rfl

theorem spawnBall_id (s : Settings) (boundary_center : Vec) (boundary_radius : ℝ)
    (or : SpawnOracle) (i : ℕ) (balls : List Ball) (color : ℕ × ℕ × ℕ) :
    (spawnBall s boundary_center boundary_radius or i balls color).id = i := rfl

theorem spawnBall_counters (s : Settings) (boundary_center : Vec) (boundary_radius : ℝ)
    (or : SpawnOracle) (i : ℕ) (balls : List Ball) (color : ℕ × ℕ × ℕ) :
    (spawnBall s boundary_center boundary_radius or i balls color).lines_removed_by_me = 0 ∧
    (spawnBall s boundary_center boundary_radius or i balls color).my_lines_removed_by_others
      = 0 := ⟨rfl, rfl⟩

/-- With enough colors, spawning succeeds and produces balls with ids
0, ..., count-1 in order, all counters zero. -/
theorem spawn_balls_isSome (s : Settings) (boundary_center : Vec) (boundary_radius : ℝ)
    (or : SpawnOracle) :
    ∀ count : ℕ, count ≤ s.colors.length →
    ∃ bs, spawn_balls s boundary_center boundary_radius or count = some bs ∧
      bs.map (fun b => b.id) = List.range count ∧
      ∀ b ∈ bs, b.lines_removed_by_me = 0 ∧ b.my_lines_removed_by_others = 0 := by
  intro count
  induction count with
  | zero =>
    intro _
    exact ⟨[], rfl, rfl, by intro b hb; simp at hb⟩
  | succ n ih =>
    intro h
    obtain ⟨bs, hsp, hids, hcnt⟩ := ih (by omega)
    have hn : n < s.colors.length := by omega
    have hc : s.colors[n]? = some (s.colors.get ⟨n, hn⟩) :=
      List.getElem?_eq_getElem hn
    refine ⟨bs ++ [spawnBall s boundary_center boundary_radius or n bs
      (s.colors.get ⟨n, hn⟩)], ?_, ?_, ?_⟩
    · rw [spawn_balls_succ, hsp, Option.some_bind, hc]
    · rw [List.map_append, hids, List.range_succ n]
      rfl
    · intro b hb
      rcases List.mem_append.mp hb with h1 | h1
      · exact hcnt b h1
      · rcases List.mem_singleton.mp h1 with rfl
        exact spawnBall_counters ..

/-- With too few colors, spawning fails (the IndexError of colors[i]). -/
theorem spawn_balls_none (s : Settings) (boundary_center : Vec) (boundary_radius : ℝ)
    (or : SpawnOracle) :
    ∀ count : ℕ, s.colors.length < count →
    spawn_balls s boundary_center boundary_radius or count = none := by
  intro count
  induction count with
  | zero => intro h; omega
  | succ n ih =>
    intro h
    rw [spawn_balls_succ]
    by_cases hn : s.colors.length < n
    · rw [ih hn]
      rfl
    · cases hsp : spawn_balls s boundary_center boundary_radius or n with
      | none => rfl
      | some bs =>
        rw [Option.some_bind, List.getElem?_eq_none (by omega)]

theorem Game.init_isSome (s : Settings) (or : SpawnOracle)
    (h : s.num_balls ≤ s.colors.length) : ∃ g, Game.init s or = some g := by
  obtain ⟨bs, hsp, -, -⟩ := spawn_balls_isSome s BOUNDARY_CENTER
    (BOUNDARY_RADIUS * max 0.3 (min 1.0 s.boundary_radius_scale)) or s.num_balls h
  unfold Game.init
  dsimp only
  rw [hsp]
  exact ⟨_, rfl⟩

/-- C8 (amended): construction fails exactly when the colors list is shorter
than num_balls; no other Settings defect is rejected. -/
theorem claim_C8_amended_construction (s : Settings) (or : SpawnOracle) :
    Game.init s or = none ↔ s.colors.length < s.num_balls := by
  constructor
  · intro h
    by_contra hlt
    obtain ⟨g, hg⟩ := Game.init_isSome s or (by omega)
    rw [hg] at h
    exact absurd h (by simp)
  · intro h
    unfold Game.init
    dsimp only
    rw [spawn_balls_none s BOUNDARY_CENTER _ or s.num_balls h]
    rfl

/-- A Settings value with two identical colors (and matching length). -/
def sDup : Settings :=
  { num_balls := 2, lines_per_boundary_hit := 3,
    ball_collision_speed_increase_factor := 0,
    boundary_collision_speed_increase := 0, boundary_radius_scale := 1,
    colors := [(255, 0, 0), (255, 0, 0)] }

def oWitness : SpawnOracle :=
  { rad := fun _ _ => 0, ang := fun _ _ => 0, speed := fun _ => 0,
    dir := fun _ => 0, lineAng := fun _ _ => 0 }

/-- C8 counterexample: duplicate colors are not rejected — construction
succeeds on a Settings value with two identical colors. -/
theorem claim_C8_counterexample :
    ¬ sDup.colors.Nodup ∧ sDup.colors.length = sDup.num_balls ∧
    ∃ g, Game.init sDup oWitness = some g :=
  ⟨by decide, rfl, Game.init_isSome sDup oWitness (by norm_num [sDup])⟩

/-! Claim C9: alive/eliminated partition of all_balls. -/

def ballIds (l : List Ball) : List ℕ := l.map fun b => b.id

/-- The C9 invariant: the references (ids) of the alive and eliminated balls
are together a permutation of all_balls, whose entries are pairwise distinct. -/
def C9Inv (g : Game) : Prop :=
  (ballIds g.balls ++ ballIds g.eliminated_balls).Perm g.all_balls ∧
  g.all_balls.Nodup

theorem PW_mono {R S : Ball → Ball → Prop} (hRS : ∀ x y, R x y → S x y)
    {l l' : List Ball} (h : PW R l l') : PW S l l' :=
  ⟨h.1, fun i h1 h2 => hRS _ _ (h.2 i h1 h2)⟩

theorem IdEq_core (x y z : Ball) (h1 : IdEq x y) (h2 : CoreEq y z) : IdEq x z :=
  h2.1.trans h1

theorem LinesExtends_toId (x y : Ball) (h : LinesExtends x y) : IdEq x y := h.1

theorem PW_ballIds {l l' : List Ball} (h : PW IdEq l l') : ballIds l' = ballIds l := by
  unfold ballIds
  refine List.ext_getElem (by rw [List.length_map, List.length_map, h.1]) ?_
  intro i hi hi'
  rw [List.getElem_map, List.getElem_map]
  exact h.2 i (by simpa using hi') (by simpa using hi)

theorem sevStep_pres_id (base : List Ball) (st : List Ball × List ℕ) (p : ℕ × ℕ)
    (h : PW IdEq base st.1) : PW IdEq base (sevStep st p).1 := by
  unfold sevStep
  split
  case _ m o heq1 heq2 =>
    split_ifs with hid
    · exact h
    · obtain ⟨hi1, hv1⟩ := getElem?_bound_val heq1
      obtain ⟨hi2, hv2⟩ := getElem?_bound_val heq2
      refine PW_set (PW_set h p.1 _ ?_) p.2 _ ?_
      · intro hb1
        have hh := h.2 p.1 hb1 hi1
        rw [hv1] at hh
        exact hh
      · intro hb2
        have hh := h.2 p.2 hb2 hi2
        rw [hv2] at hh
        exact hh
  case _ => exact h

theorem severancePass_pres_id (bs : List Ball) :
    PW IdEq bs (severancePass bs).1 := by
  unfold severancePass
  exact foldl_inv (fun st => PW IdEq bs st.1) _ _ (bs, [])
    (@PW_refl IdEq (fun _ => rfl) bs) (fun st p hp => sevStep_pres_id bs st p hp)

/-- The ids of the alive list are unchanged by the whole pre-elimination
pipeline (movement, collisions, severance or grace skip). -/
theorem sv_ids (g : Game) (dt current_time t0 : ℝ) (oracle : ℕ → ℕ → ℝ) :
    ballIds (sevOrGrace (prePhase g dt oracle) current_time t0).1 =
      ballIds g.balls := by
  have h1 : PW IdEq g.balls (prePhase g dt oracle) :=
    PW_mono LinesExtends_toId (prePhase_extends g dt oracle)
  unfold sevOrGrace
  split_ifs
  · exact PW_ballIds h1
  · have h2 : PW IdEq (prePhase g dt oracle)
        (severancePass (prePhase g dt oracle)).1 :=
      severancePass_pres_id (prePhase g dt oracle)
    rw [PW_ballIds h2, PW_ballIds h1]

/-- A successful find? exhibits the list as a permutation of the found
element consed onto the eraseP remainder. -/
theorem find?_perm {α : Type _} (p : α → Bool) :
    ∀ (l : List α) (d : α), l.find? p = some d → l.Perm (d :: l.eraseP p) := by
  intro l
  induction l with
  | nil => intro d h; simp at h
  | cons a tl ih =>
    intro d h
    by_cases hp : p a
    · rw [List.find?_cons_of_pos _ hp] at h
      rw [List.eraseP_cons_of_pos hp]
      rw [Option.some.injEq] at h
      rw [h]
    · rw [List.find?_cons_of_neg _ (by simpa using hp)] at h
      rw [List.eraseP_cons_of_neg (by simpa using hp)]
      exact ((ih d h).cons a).trans (List.Perm.swap d a _)

/-- An elimination step permutes the concatenation of alive and eliminated. -/
theorem elimStep_perm (st : List Ball × List Ball) (i : ℕ) :
    ((elimStep st i).1 ++ (elimStep st i).2).Perm (st.1 ++ st.2) := by
  unfold elimStep
  split
  case _ d heq =>
    have hperm := find?_perm (fun x => x.id == i) st.1 d heq
    have h1 : (st.1.eraseP (fun x => x.id == i) ++ (st.2 ++ [d])).Perm
        ([d] ++ (st.1.eraseP (fun x => x.id == i) ++ st.2)) := by
      rw [← List.append_assoc]
      exact List.perm_append_comm
    have h2 : [d] ++ (st.1.eraseP (fun x => x.id == i) ++ st.2) =
        (d :: st.1.eraseP (fun x => x.id == i)) ++ st.2 := rfl
    rw [h2] at h1
    exact h1.trans (hperm.symm.append_right st.2)
  case _ => exact List.Perm.refl _

theorem elimPass_perm (bs : List Ball) (te : List ℕ) (elim : List Ball) :
    ((elimPass bs te elim).1 ++ (elimPass bs te elim).2).Perm (bs ++ elim) := by
  unfold elimPass
  exact foldl_inv (fun st => (st.1 ++ st.2).Perm (bs ++ elim)) _ _ (bs, elim)
    (List.Perm.refl _) (fun st i hp => (elimStep_perm st i).trans hp)

theorem Game.update_all_balls (g : Game) (dt current_time : ℝ)
    (oracle : ℕ → ℕ → ℝ) :
    (Game.update g dt current_time oracle).all_balls = g.all_balls := by
  unfold Game.update
  split_ifs
  · rfl
  · exact victoryCheck_all_balls ..

/-- The state produced by Game.init: ids 0..n-1 in order, all_balls the same
ids, nothing eliminated, zero counters, no winner, game live. -/
theorem init_inv (s : Settings) (or : SpawnOracle) (g0 : Game)
    (h : Game.init s or = some g0) :
    g0.balls.map (fun b => b.id) = List.range s.num_balls ∧
    g0.all_balls = g0.balls.map (fun b => b.id) ∧
    g0.eliminated_balls = [] ∧
    (∀ b ∈ g0.balls, b.lines_removed_by_me = 0 ∧ b.my_lines_removed_by_others = 0) ∧
    g0.winner = none ∧ g0.game_over = false := by
  by_cases hlen : s.num_balls ≤ s.colors.length
  · obtain ⟨bs, hsp, hids, hcnt⟩ := spawn_balls_isSome s BOUNDARY_CENTER
      (BOUNDARY_RADIUS * max 0.3 (min 1.0 s.boundary_radius_scale)) or s.num_balls hlen
    unfold Game.init at h
    dsimp only at h
    rw [hsp] at h
    rw [Option.map_some', Option.some.injEq] at h
    subst h
    exact ⟨hids, rfl, rfl, hcnt, rfl, rfl⟩
  · exfalso
    unfold Game.init at h
    dsimp only at h
    rw [spawn_balls_none s BOUNDARY_CENTER _ or s.num_balls (by omega)] at h
    exact absurd h (by simp)

theorem init_C9Inv (s : Settings) (or : SpawnOracle) (g0 : Game)
    (h : Game.init s or = some g0) : C9Inv g0 := by
  obtain ⟨hids, hall, helim, -, -, -⟩ := init_inv s or g0 h
  constructor
  · rw [helim]
    unfold ballIds
    rw [hall]
    simp
  · rw [hall, hids]
    exact List.nodup_range s.num_balls

/-- C9: the partition invariant holds after spawning, is preserved by every
update (which also leaves all_balls untouched), and makes the alive and
eliminated reference lists disjoint. -/
theorem claim_C9_partition (g : Game) (dt current_time : ℝ) (oracle : ℕ → ℕ → ℝ)
    (h : C9Inv g) :
    C9Inv (Game.update g dt current_time oracle) ∧
    (Game.update g dt current_time oracle).all_balls = g.all_balls ∧
    (ballIds g.balls).Disjoint (ballIds g.eliminated_balls) ∧
    (∀ s or g0, Game.init s or = some g0 → C9Inv g0) := by
  refine ⟨?_, Game.update_all_balls g dt current_time oracle, ?_,
    fun s or g0 h0 => init_C9Inv s or g0 h0⟩
  · cases hgo : g.game_over with
    | true =>
      rw [Game.update_of_game_over g dt current_time oracle hgo]
      exact h
    | false =>
      rw [Game.update_live g dt current_time oracle hgo]
      constructor
      · rw [victoryCheck_balls, victoryCheck_eliminated, victoryCheck_all_balls]
        have hperm := elimPass_perm
          (sevOrGrace (prePhase g dt oracle) current_time
            (g.game_start_time.getD current_time)).1
          (sevOrGrace (prePhase g dt oracle) current_time
            (g.game_start_time.getD current_time)).2
          g.eliminated_balls
        have hmap := hperm.map (fun b => b.id)
        rw [List.map_append, List.map_append] at hmap
        have hids := sv_ids g dt current_time
          (g.game_start_time.getD current_time) oracle
        unfold ballIds at hids ⊢
        rw [hids] at hmap
        exact hmap.trans h.1
      · rw [victoryCheck_all_balls]
        exact h.2
  · have hnd : (ballIds g.balls ++ ballIds g.eliminated_balls).Nodup :=
      (h.1.nodup_iff).mpr h.2
    exact List.disjoint_of_nodup_append hnd

theorem claim_C9_partition_witness :
    C9Inv gWitness ∧
    (C9Inv (Game.update gWitness 0 0 (fun _ _ => 0)) ∧
     (Game.update gWitness 0 0 (fun _ _ => 0)).all_balls = gWitness.all_balls ∧
     (ballIds gWitness.balls).Disjoint (ballIds gWitness.eliminated_balls) ∧
     (∀ s or g0, Game.init s or = some g0 → C9Inv g0)) :=
  ⟨⟨by simp [gWitness, ballIds], by simp [gWitness]⟩,
   claim_C9_partition gWitness 0 0 (fun _ _ => 0)
     ⟨by simp [gWitness, ballIds], by simp [gWitness]⟩⟩

/-! Claim C10: the two severance counters balance globally. -/

def sumMe (l : List Ball) : ℕ := (l.map fun b => b.lines_removed_by_me).sum

def sumOth (l : List Ball) : ℕ := (l.map fun b => b.my_lines_removed_by_others).sum

/-- The C10 invariant over the ball objects of the session (alive plus
eliminated, which by C9 are exactly the balls referenced by all_balls). -/
def C10Inv (g : Game) : Prop :=
  sumMe (g.balls ++ g.eliminated_balls) = sumOth (g.balls ++ g.eliminated_balls)

/-- The stats rows read through all_balls: each reference dereferenced in the
alive-then-eliminated store. -/
noncomputable def derefStats (g : Game) : List Ball :=
  g.all_balls.filterMap fun i =>
    (g.balls ++ g.eliminated_balls).find? fun x => x.id == i

theorem sumMe_append (l l' : List Ball) : sumMe (l ++ l') = sumMe l + sumMe l' := by
  unfold sumMe
  rw [List.map_append, List.sum_append]

theorem sumOth_append (l l' : List Ball) : sumOth (l ++ l') = sumOth l + sumOth l' := by
  unfold sumOth
  rw [List.map_append, List.sum_append]

theorem sum_map_set (f : Ball → ℕ) :
    ∀ (l : List Ball) (i : ℕ) (a : Ball) (h : i < l.length),
    ((l.set i a).map f).sum + f (l[i]) = (l.map f).sum + f a := by
  intro l
  induction l with
  | nil => intro i a h; simp at h
  | cons hd tl ih =>
    intro i a h
    cases i with
    | zero => simp [List.set]; omega
    | succ n =>
      have hn : n < tl.length := by simpa using h
      have := ih n a hn
      simp only [List.set, List.map_cons, List.sum_cons, List.getElem_cons_succ]
      omega

theorem PW_map_eq {R : Ball → Ball → Prop} (f : Ball → ℕ)
    (hf : ∀ x y, R x y → f y = f x) {l l' : List Ball} (h : PW R l l') :
    l'.map f = l.map f := by
  refine List.ext_getElem (by rw [List.length_map, List.length_map, h.1]) ?_
  intro i hi hi'
  rw [List.getElem_map, List.getElem_map]
  exact hf _ _ (h.2 i (by simpa using hi') (by simpa using hi))

theorem LinesExtends_me (x y : Ball) (h : LinesExtends x y) :
    y.lines_removed_by_me = x.lines_removed_by_me := h.2.1

theorem LinesExtends_oth (x y : Ball) (h : LinesExtends x y) :
    y.my_lines_removed_by_others = x.my_lines_removed_by_others := h.2.2.1

theorem prePhase_sums (g : Game) (dt : ℝ) (oracle : ℕ → ℕ → ℝ) :
    sumMe (prePhase g dt oracle) = sumMe g.balls ∧
    sumOth (prePhase g dt oracle) = sumOth g.balls := by
  have h := prePhase_extends g dt oracle
  constructor
  · unfold sumMe
    rw [PW_map_eq _ LinesExtends_me h]
  · unfold sumOth
    rw [PW_map_eq _ LinesExtends_oth h]

/-- The inner severance loop increments both counters in lockstep. -/
theorem sevInner_mc_oc (m o : Ball) (te0 : List ℕ) :
    (sevInner m o te0).mc = (sevInner m o te0).oc := by
  unfold sevInner
  refine foldl_inv (fun acc : SevAcc => acc.mc = acc.oc) _ _ _ rfl ?_
  intro acc anchor hp
  split_ifs
  · simpa using hp
  · exact hp

/-- Writing back incremented mover/owner records changes both global sums by
the same amount. -/
theorem set_pair_sums (bs : List Ball) (p1 p2 : ℕ) (m o m' o' : Ball) (k : ℕ)
    (h1 : bs[p1]? = some m) (h2 : bs[p2]? = some o) (hne : p1 ≠ p2)
    (hm'me : m'.lines_removed_by_me = m.lines_removed_by_me + k)
    (hm'oth : m'.my_lines_removed_by_others = m.my_lines_removed_by_others)
    (ho'me : o'.lines_removed_by_me = o.lines_removed_by_me)
    (ho'oth : o'.my_lines_removed_by_others = o.my_lines_removed_by_others + k) :
    sumMe ((bs.set p1 m').set p2 o') = sumMe bs + k ∧
    sumOth ((bs.set p1 m').set p2 o') = sumOth bs + k := by
  obtain ⟨hi1, hv1⟩ := getElem?_bound_val h1
  obtain ⟨hi2, hv2⟩ := getElem?_bound_val h2
  have hb2' : p2 < (bs.set p1 m').length := by rw [List.length_set]; exact hi2
  have hgel : (bs.set p1 m')[p2] = o := by
    rw [List.getElem_set, if_neg hne]
    exact hv2
  unfold sumMe sumOth
  constructor
  · have e1 := sum_map_set (fun b => b.lines_removed_by_me) bs p1 m' hi1
    have e2 := sum_map_set (fun b => b.lines_removed_by_me) (bs.set p1 m') p2 o' hb2'
    rw [hv1, hm'me] at e1
    rw [hgel, ho'me] at e2
    omega
  · have e1 := sum_map_set (fun b => b.my_lines_removed_by_others) bs p1 m' hi1
    have e2 := sum_map_set (fun b => b.my_lines_removed_by_others) (bs.set p1 m') p2 o' hb2'
    rw [hv1, hm'oth] at e1
    rw [hgel, ho'oth] at e2
    omega

/-- One severance pair changes the two sums by the same amount. -/
theorem sevStep_sums (st : List Ball × List ℕ) (p : ℕ × ℕ) :
    sumMe (sevStep st p).1 + sumOth st.1 = sumMe st.1 + sumOth (sevStep st p).1 := by
  unfold sevStep
  split
  case _ m o heq1 heq2 =>
    split_ifs with hid
    · rfl
    · dsimp only
      have hne : p.1 ≠ p.2 := by
        intro hpp
        rw [hpp, heq2, Option.some.injEq] at heq1
        exact hid (by rw [heq1])
      have hk := sevInner_mc_oc m o st.2
      have hs := set_pair_sums st.1 p.1 p.2 m o
        { m with lines_removed_by_me := m.lines_removed_by_me + (sevInner m o st.2).mc }
        { o with lines := (sevInner m o st.2).ls
                 my_lines_removed_by_others :=
                   o.my_lines_removed_by_others + (sevInner m o st.2).oc }
        (sevInner m o st.2).mc heq1 heq2 hne rfl rfl rfl (by rw [hk])
      omega
  case _ => rfl

theorem severancePass_sums (bs : List Ball) :
    sumMe (severancePass bs).1 + sumOth bs = sumOth (severancePass bs).1 + sumMe bs := by
  unfold severancePass
  refine foldl_inv
    (fun st : List Ball × List ℕ => sumMe st.1 + sumOth bs = sumOth st.1 + sumMe bs)
    _ _ (bs, []) (by dsimp only; omega) ?_
  intro st p hp
  have := sevStep_sums st p
  omega

theorem perm_sumMe {l l' : List Ball} (h : l.Perm l') : sumMe l = sumMe l' :=
  (h.map _).sum_eq

theorem perm_sumOth {l l' : List Ball} (h : l.Perm l') : sumOth l = sumOth l' :=
  (h.map _).sum_eq

/-- find? by key returns the unique element with that key. -/
theorem find?_key_self :
    ∀ (l : List Ball), (ballIds l).Nodup → ∀ b ∈ l,
      l.find? (fun x => x.id == b.id) = some b := by
  intro l
  induction l with
  | nil => intro _ b hb; simp at hb
  | cons a tl ih =>
    intro hnd b hb
    have hnd' : (ballIds tl).Nodup := by
      unfold ballIds at hnd ⊢
      exact (List.nodup_cons.mp hnd).2
    have han : a.id ∉ ballIds tl := by
      unfold ballIds at hnd ⊢
      exact (List.nodup_cons.mp hnd).1
    rcases List.mem_cons.mp hb with rfl | hbtl
    · exact List.find?_cons_of_pos _ (by simp)
    · have hab : ¬ (a.id == b.id) = true := by
        simp only [beq_iff_eq]
        intro hh
        exact han (hh ▸ List.mem_map.mpr ⟨b, hbtl, rfl⟩)
      exact (@List.find?_cons_of_neg _ (fun x => x.id == b.id) a tl hab).trans
        (ih hnd' b hbtl)

theorem filterMap_eq_self (f : Ball → Option Ball) :
    ∀ l : List Ball, (∀ b ∈ l, f b = some b) → l.filterMap f = l := by
  intro l
  induction l with
  | nil => intro _; rfl
  | cons a tl ih =>
    intro h
    rw [List.filterMap_cons, h a (List.mem_cons_self a tl),
      ih (fun b hb => h b (List.mem_cons_of_mem a hb))]

/-- Under the C9 invariant the stats rows are a permutation of the session's
ball objects. -/
theorem derefStats_perm (g : Game) (h9 : C9Inv g) :
    (derefStats g).Perm (g.balls ++ g.eliminated_balls) := by
  have hperm : (ballIds (g.balls ++ g.eliminated_balls)).Perm g.all_balls := by
    unfold ballIds
    rw [List.map_append]
    exact h9.1
  have hnd : (ballIds (g.balls ++ g.eliminated_balls)).Nodup :=
    (hperm.nodup_iff).mpr h9.2
  have h1 : (derefStats g).Perm
      ((ballIds (g.balls ++ g.eliminated_balls)).filterMap fun i =>
        (g.balls ++ g.eliminated_balls).find? fun x => x.id == i) :=
    (hperm.symm).filterMap _
  have h2 : ((ballIds (g.balls ++ g.eliminated_balls)).filterMap fun i =>
      (g.balls ++ g.eliminated_balls).find? fun x => x.id == i) =
      g.balls ++ g.eliminated_balls := by
    unfold ballIds
    rw [List.filterMap_map]
    exact filterMap_eq_self _ _ (fun b hb =>
      find?_key_self (g.balls ++ g.eliminated_balls) hnd b hb)
  rw [h2] at h1
  exact h1

theorem init_C10 (s : Settings) (or : SpawnOracle) (g0 : Game)
    (h : Game.init s or = some g0) : C10Inv g0 := by
  obtain ⟨-, -, helim, hcnt, -, -⟩ := init_inv s or g0 h
  unfold C10Inv
  rw [helim, List.append_nil]
  have hz1 : sumMe g0.balls = 0 := by
    unfold sumMe
    refine List.sum_eq_zero ?_
    intro x hx
    obtain ⟨b, hb, rfl⟩ := List.mem_map.mp hx
    exact (hcnt b hb).1
  have hz2 : sumOth g0.balls = 0 := by
    unfold sumOth
    refine List.sum_eq_zero ?_
    intro x hx
    obtain ⟨b, hb, rfl⟩ := List.mem_map.mp hx
    exact (hcnt b hb).2
  rw [hz1, hz2]

/-- C10: the two counters have equal sums over the session's balls: the
equality holds at spawn (all zero), is preserved by every update, and under
C9 transfers to the rows dereferenced through all_balls. -/
theorem claim_C10_counter_balance (g : Game) (dt current_time : ℝ)
    (oracle : ℕ → ℕ → ℝ) (h9 : C9Inv g) (h : C10Inv g) :
    C10Inv (Game.update g dt current_time oracle) ∧
    sumMe (derefStats g) = sumOth (derefStats g) ∧
    (∀ s or g0, Game.init s or = some g0 →
      C10Inv g0 ∧ sumMe (derefStats g0) = sumOth (derefStats g0)) := by
  refine ⟨?_, ?_, fun s or g0 h0 => ⟨init_C10 s or g0 h0, ?_⟩⟩
  · cases hgo : g.game_over with
    | true =>
      rw [Game.update_of_game_over g dt current_time oracle hgo]
      exact h
    | false =>
      rw [Game.update_live g dt current_time oracle hgo]
      unfold C10Inv
      rw [victoryCheck_balls, victoryCheck_eliminated]
      have hperm := elimPass_perm
        (sevOrGrace (prePhase g dt oracle) current_time
          (g.game_start_time.getD current_time)).1
        (sevOrGrace (prePhase g dt oracle) current_time
          (g.game_start_time.getD current_time)).2
        g.eliminated_balls
      rw [perm_sumMe hperm, perm_sumOth hperm, sumMe_append, sumOth_append]
      have hpre := prePhase_sums g dt oracle
      have hinv : sumMe (g.balls ++ g.eliminated_balls) =
          sumOth (g.balls ++ g.eliminated_balls) := h
      rw [sumMe_append, sumOth_append] at hinv
      unfold sevOrGrace
      split_ifs
      · dsimp only
        omega
      · have hsv := severancePass_sums (prePhase g dt oracle)
        omega
  · have hp := derefStats_perm g h9
    rw [perm_sumMe hp, perm_sumOth hp]
    exact h
  · have hp := derefStats_perm g0 (init_C9Inv s or g0 h0)
    rw [perm_sumMe hp, perm_sumOth hp]
    exact init_C10 s or g0 h0

theorem claim_C10_counter_balance_witness :
    (C9Inv gWitness ∧ C10Inv gWitness) ∧
    (C10Inv (Game.update gWitness 0 0 (fun _ _ => 0)) ∧
     sumMe (derefStats gWitness) = sumOth (derefStats gWitness) ∧
     (∀ s or g0, Game.init s or = some g0 →
       C10Inv g0 ∧ sumMe (derefStats g0) = sumOth (derefStats g0))) :=
  ⟨⟨⟨by simp [gWitness, ballIds], by simp [gWitness]⟩, by simp [C10Inv, gWitness, sumMe, sumOth]⟩,
   claim_C10_counter_balance gWitness 0 0 (fun _ _ => 0)
     ⟨by simp [gWitness, ballIds], by simp [gWitness]⟩
     (by simp [C10Inv, gWitness, sumMe, sumOth])⟩

end VectorBalls
